import Mathlib

/-!
Verification development for the lead-collection pipeline
(`main.py`, `utils/places.py`, `utils/osm_places.py`, `utils/email_extractor.py`).

Modelling conventions:
* Python strings are modelled as `String` / `List Char`; `str.strip`, `str.split`,
  `str.rstrip`, `str.replace`, `str.lower` are modelled character by character
  (ASCII lowering, which is what every input in these claims uses).
* Python `set` objects are modelled as `Finset String` (membership-only use).
* Numeric payload fields (latitude, longitude, rating, review counts) are never
  inspected by any of the verified properties; they are carried opaquely in their
  serialized string form.
* Network effects are modelled by an explicit oracle (`Web`): the robots verdict
  for a URL and the page text returned by a fetch.  Functions that perform
  fetches additionally return the list of content URLs they fetched, as an
  instrumentation of the I/O trace (the code itself only logs them).
* Exceptions are modelled with `Except String`.
-/

deriving instance DecidableEq for Except

namespace MailGen

/-! ## Character-level primitives shared by the embedded modules -/

/-- Python `str.lstrip()` (whitespace on the left). -/
def pyLStrip (l : List Char) : List Char := l.dropWhile Char.isWhitespace

/-- Generic Python `str.rstrip(chars)`: drop from the right while `p` holds. -/
def pyRStripBy (p : Char → Bool) (l : List Char) : List Char :=
  (l.reverse.dropWhile p).reverse

/-- Python `str.strip()` (whitespace on both sides). -/
def pyStripChars (l : List Char) : List Char :=
  pyRStripBy Char.isWhitespace (pyLStrip l)

/-- Python `str.strip()` on a `String`. -/
def pyStrip (s : String) : String := String.mk (pyStripChars s.data)

/-- Python `"pat" in s` (substring test; the empty pattern is contained in everything). -/
def containsSub (pat : List Char) : List Char → Bool
  | [] => pat.isEmpty
  | c :: t => pat.isPrefixOf (c :: t) || containsSub pat t

/-- Boolean string-starts-with, via the character lists. -/
def startsWithL (s p : String) : Bool := p.data.isPrefixOf s.data

/-- Python `",".join(xs)` (empty list gives the empty string). -/
def joinComma : List String → String
  | [] => ""
  | [s] => s
  | s :: t :: r => s ++ "," ++ joinComma (t :: r)

/-- Python `"; ".join(xs)`. -/
def joinSemi : List String → String
  | [] => ""
  | [s] => s
  | s :: t :: r => s ++ "; " ++ joinSemi (t :: r)

/-! ## `urllib.parse.urlparse`, restricted to what the repository consumes

The code only ever reads `parsed.scheme`, `parsed.netloc` and `parsed.path`.
We model the split exactly as `urlsplit` performs it on (ASCII) inputs: tab,
CR and LF characters are removed from the whole URL first; a scheme is
recognised when a first `:` is preceded by a non-empty alphanumeric scheme
token; the netloc is parsed when the remainder starts with `//`, and runs to
the next `/`, `?` or `#`; the path runs from there to the next `?` or `#`.
`urlsplit` raises `ValueError` ("Invalid IPv6 URL") exactly when the parsed
netloc contains `[` without `]` or `]` without `[` — for ASCII inputs this is
its only raise; `urlparseOk` below captures it. -/

/-- The `_UNSAFE_URL_BYTES_TO_REMOVE` removal `urlsplit` applies first:
delete every tab, CR and LF. -/
def urlSanitize (l : List Char) : List Char :=
  l.filter fun c => !(c == '\t' || c == '\r' || c == '\n')

/-- Split at the first `:` — returns (before, after) when a colon exists. -/
def splitFirstColon : List Char → Option (List Char × List Char)
  | [] => none
  | c :: t =>
    if c = ':' then some ([], t)
    else match splitFirstColon t with
      | none => none
      | some (a, b) => some (c :: a, b)

/-- Valid URL scheme token: non-empty, starts with a letter, rest alphanumeric or `+`/`-`/`.`. -/
def validScheme (l : List Char) : Bool :=
  match l with
  | [] => false
  | c :: t => c.isAlpha && t.all (fun d => d.isAlphanum || d == '+' || d == '-' || d == '.')

/-- Characters that end the netloc component. -/
def netlocEnd (c : Char) : Bool := c == '/' || c == '?' || c == '#'

/-- The (scheme, rest-after-`scheme:`) decomposition, when a valid scheme is present. -/
def schemeSplit (l : List Char) : Option (List Char × List Char) :=
  match splitFirstColon l with
  | some (sch, rest) => if validScheme sch then some (sch, rest) else none
  | none => none

/-- `urlparse(url).scheme` (lower-cased by `urlparse`). -/
def urlScheme (l : List Char) : List Char :=
  match schemeSplit (urlSanitize l) with
  | some (sch, _) => sch.map Char.toLower
  | none => []

/-- The part of the URL in which netloc/path live (after the scheme, if any). -/
def urlAfterScheme (l : List Char) : List Char :=
  match schemeSplit (urlSanitize l) with
  | some (_, rest) => rest
  | none => urlSanitize l

/-- `urlparse(url).netloc`. -/
def urlNetloc (l : List Char) : List Char :=
  let rest := urlAfterScheme l
  if ['/', '/'].isPrefixOf rest then (rest.drop 2).takeWhile (fun c => !netlocEnd c)
  else []

/-- `urlparse(url).path` (query and fragment stripped). -/
def urlPath (l : List Char) : List Char :=
  let rest := urlAfterScheme l
  let afterNetloc :=
    if ['/', '/'].isPrefixOf rest then (rest.drop 2).dropWhile (fun c => !netlocEnd c)
    else rest
  afterNetloc.takeWhile (fun c => !(c == '?' || c == '#'))

/-- Whether `urlparse(url)` returns normally: `urlsplit` raises `ValueError`
iff the parsed netloc contains exactly one of `[`, `]`. -/
def urlparseOk (l : List Char) : Bool :=
  ((urlNetloc l).contains '[') == ((urlNetloc l).contains ']')

/-! ## `utils/places.py` and `utils/osm_places.py`

`_normalize_website` is textually identical in both modules; so is the body of
`get_domain_for_dedup` (in `places.py` it is named `_extract_domain` and
re-exported as `get_domain_for_dedup`).  Each is embedded once. -/

namespace places

/-- `url.lower().startswith(("http://", "https://"))`. -/
def startsHttpLower (l : List Char) : Bool :=
  ("http://".data.isPrefixOf (l.map Char.toLower)) ||
  ("https://".data.isPrefixOf (l.map Char.toLower))

/-- The first two statements of `_normalize_website`: `url = url.strip()`, then
`if "?" in url: url = url.split("?")[0].rstrip("/")`. -/
def normalizeCore (l : List Char) : List Char :=
  let url := pyStripChars l
  if url.contains '?' then
    pyRStripBy (fun c => c == '/') (url.takeWhile (fun c => !(c == '?')))
  else url

/-- Website normalization on character lists.  Mirrors
`utils/places.py._normalize_website` / `utils/osm_places.py._normalize_website`:
strip, drop everything from the first `?` (then rstrip `/`), and prepend
`https://` when the (lower-cased) result does not already start with
`http://` or `https://`. -/
def normalizeChars (l : List Char) : List Char :=
  let url := normalizeCore l
  if !url.isEmpty && !startsHttpLower url then "https://".data ++ url
  else url

/-- `_normalize_website(url)` of `utils/places.py` (identical in `utils/osm_places.py`). -/
def _normalize_website (s : String) : String := String.mk (normalizeChars s.data)

/-- Python `host.replace("www.", "")`: remove every (non-overlapping, left-to-right)
occurrence of the four characters `www.`. -/
def replaceWWW : List Char → List Char
  | 'w' :: 'w' :: 'w' :: '.' :: tail => replaceWWW tail
  | c :: rest => c :: replaceWWW rest
  | [] => []

/-- The host picked for dedup: `parsed.netloc or parsed.path`. -/
def hostOf (l : List Char) : List Char :=
  if (urlNetloc l).isEmpty then urlPath l else urlNetloc l

/-- `get_domain_for_dedup(url)` of `utils/osm_places.py` (same computation as
`_extract_domain` in `utils/places.py`):
`(parsed.netloc or parsed.path).lower().replace("www.", "")` inside a
`try`, with `except Exception: return url` — `urlparse` raises `ValueError`
when the netloc has unbalanced brackets, and then the raw URL is returned. -/
def get_domain_for_dedup (s : String) : String :=
  if urlparseOk s.data then String.mk (replaceWWW ((hostOf s.data).map Char.toLower))
  else s

end places

/-! ## `utils/email_extractor.py` -/

namespace email_extractor

/-- `INVALID_EMAIL_DOMAINS` (placeholder/invalid email domains to skip). -/
def INVALID_EMAIL_DOMAINS : List String :=
  ["example.com", "example.org", "example.net", "test.com", "placeholder.com",
   "email.com", "domain.com", "sentry.io", "wixpress.com", "sentry.wixpress.com",
   "sentry-next.wixpress.com", "yoursite.com", "youremail.com"]

/-- `INVALID_EMAIL_DOMAIN_SUFFIXES`. -/
def INVALID_EMAIL_DOMAIN_SUFFIXES : List String := [".wixpress.com", ".sentry.io"]

/-- A character of the regex class `[a-f0-9]` (with `re.IGNORECASE`, also `A-F`). -/
def hexIdChar (c : Char) : Bool :=
  (('0' ≤ c && c ≤ '9') || ('a' ≤ c && c ≤ 'f') || ('A' ≤ c && c ≤ 'F'))

/-- `HEX_ID_PATTERN.match(local)`: the anchored pattern `[a-f0-9]{20,}` matches the
whole string iff it has at least 20 characters, all in the class. -/
def hexIdMatch (l : List Char) : Bool := 20 ≤ l.length && l.all hexIdChar

/-- The local part of `email.rsplit("@", 1)` (everything before the last `@`). -/
def localOfLastAt (l : List Char) : List Char :=
  ((l.reverse.dropWhile (fun c => !(c == '@'))).tail).reverse

/-- The domain part of `email.rsplit("@", 1)` (everything after the last `@`). -/
def domainOfLastAt (l : List Char) : List Char :=
  (l.reverse.takeWhile (fun c => !(c == '@'))).reverse

/-- Python `suffix.strip(".")`. -/
def stripDots (l : List Char) : List Char :=
  pyRStripBy (fun c => c == '.') (l.dropWhile (fun c => c == '.'))

/-- `_is_valid_email(email)`: rejects empty/overlong strings, strings without `@`,
deny-listed and suffix-deny-listed domains, 20+-character hex local parts, and
image/data-URI artifacts. -/
def _is_valid_email (email : String) : Bool :=
  if email.data.isEmpty || 254 < email.data.length then false
  else
    let el := pyStripChars (email.data.map Char.toLower)
    if !(el.contains '@') then false
    else
      let lPart := localOfLastAt el
      let dPart := domainOfLastAt el
      if INVALID_EMAIL_DOMAINS.any (fun d => d.data == dPart) then false
      else if INVALID_EMAIL_DOMAIN_SUFFIXES.any
          (fun suf => suf.data.isSuffixOf dPart || dPart == stripDots suf.data) then false
      else if hexIdMatch lPart then false
      else if "data:".data.isPrefixOf email.data ||
              containsSub ".png".data email.data || containsSub ".jpg".data email.data then false
      else true

/-! ### The `EMAIL_PATTERN` scanner

`EMAIL_PATTERN = r"[a-zA-Z0-9._%+-]+@[a-zA-Z0-9.-]+\.[a-zA-Z]{2,}"`, used through
`finditer` (left-to-right, non-overlapping, leftmost match, greedy with minimal
backtracking).  At a given start position the match is: the maximal run of
local-part characters, a literal `@`, then the domain part, where the greedy
`[a-zA-Z0-9.-]+` backtracks to the right-most `.` that is followed by at least
two letters; the trailing `[a-zA-Z]{2,}` then takes the maximal letter run. -/

/-- The class `[a-zA-Z0-9._%+-]`. -/
def localChar (c : Char) : Bool :=
  c.isAlpha || c.isDigit || c == '.' || c == '_' || c == '%' || c == '+' || c == '-'

/-- The class `[a-zA-Z0-9.-]`. -/
def domChar (c : Char) : Bool := c.isAlpha || c.isDigit || c == '.' || c == '-'

/-- ASCII letter, the class `[a-zA-Z]`. -/
def alphaChar (c : Char) : Bool := c.isAlpha

/-- Among positions `1..dom.length-1` of the greedy domain-character run, the
largest `j` with `dom[j] = '.'` followed by at least 2 letters; returns
(prefix length j, length of the maximal letter run after the dot). -/
def domSplit (dom : List Char) : Option (Nat × Nat) :=
  (List.range dom.length).reverse.findSome? fun j =>
    if 1 ≤ j ∧ dom.get? j = some '.' ∧
       2 ≤ ((dom.drop (j + 1)).takeWhile alphaChar).length then
      some (j, ((dom.drop (j + 1)).takeWhile alphaChar).length)
    else none

/-- Length of the `EMAIL_PATTERN` match starting exactly at the head of `l`
(`none` when there is no match at this position). -/
def matchAt (l : List Char) : Option Nat :=
  let loc := l.takeWhile localChar
  if loc.isEmpty then none
  else
    match (l.drop loc.length) with
    | '@' :: rest =>
      let dom := rest.takeWhile domChar
      match domSplit dom with
      | some (j, aLen) => some (loc.length + 1 + j + 1 + aLen)
      | none => none
    | _ => none

/-- `EMAIL_PATTERN.finditer(text)`: all matches, scanning left to right.  The
fuel argument is the length of the remaining text (each step consumes at least
one character). -/
def finditerAux : Nat → List Char → List (List Char)
  | 0, _ => []
  | _, [] => []
  | fuel + 1, c :: rest =>
    match matchAt (c :: rest) with
    | some n => (c :: rest).take n :: finditerAux fuel ((c :: rest).drop n)
    | none => finditerAux fuel rest

/-- All `EMAIL_PATTERN` matches in `text`. -/
def finditer (text : List Char) : List (List Char) := finditerAux text.length text

/-- `extract_emails_from_html(html)`: every scanner match, stripped, filtered of
false positives (whitespace inside, per-page duplicate, `_is_valid_email`),
paired with the source hint `"page"`. -/
def extract_emails_from_html (html : String) : List (String × String) :=
  let step := fun (acc : List String × List (String × String)) (m : List Char) =>
    let email := String.mk (pyStripChars m)
    if email.data.contains ' ' || email.data.contains '\n' then acc
    else if acc.1.contains email then acc
    else if _is_valid_email email then (email :: acc.1, acc.2 ++ [(email, "page")])
    else acc
  ((finditer html.data).foldl step ([], [])).2

/-! ### Fetching: the network oracle and `extract_emails_from_website` -/

/-- The network, as the pipeline observes it: the robots verdict
(`RobotFileParser.can_fetch` for the harvester's user agent) and the page body a
successful `_fetch_page` returns (`none` models any fetch failure). -/
structure Web where
  robots_allowed : String → Bool
  page : String → Option String

/-- `_check_robots_allowed(url)` — the robots policy outcome for this URL. -/
def _check_robots_allowed (w : Web) (url : String) : Bool := w.robots_allowed url

/-- `_get_candidate_urls(website, max_pages)`: root page plus
`/kontakt`, `/contact`, `/impressum`, deduplicated by their `rstrip("/")`
normal form, truncated to `max_pages`. -/
def _get_candidate_urls (website : String) (max_pages : Nat := 2) : List String :=
  let parsedBase := String.mk
    (urlScheme website.data ++ "://".data ++ urlNetloc website.data)
  let base_path :=
    let p := pyRStripBy (fun c => c == '/') (urlPath website.data)
    if p.isEmpty then "/".data else p
  let candidates := [parsedBase ++ String.mk base_path,
                     parsedBase ++ "/kontakt", parsedBase ++ "/contact",
                     parsedBase ++ "/impressum"]
  let dedup := candidates.foldl
    (fun (acc : List String × List String) u =>
      let stripped := String.mk (pyRStripBy (fun c => c == '/') u.data)
      let norm := if stripped.data.isEmpty then u else stripped
      if acc.1.contains norm then acc else (norm :: acc.1, acc.2 ++ [u]))
    ([], [])
  dedup.2.take max_pages

/-- The candidate-page loop of `extract_emails_from_website`: fetch each URL,
label index 0 `"homepage"` and index `i > 0` `"page_i"`, and collect the
per-page extracted `(email, page_type)` pairs together with the list of
content URLs actually fetched. -/
def collectPages (w : Web) : Nat → List String → List (String × String) × List String
  | _, [] => ([], [])
  | i, u :: rest =>
    let tailRes := collectPages w (i + 1) rest
    match w.page u with
    | some html =>
      let page_type := if i = 0 then "homepage" else "page_" ++ toString i
      let pairs := (extract_emails_from_html html).map (fun es => (es.1, page_type))
      (pairs ++ tailRes.1, u :: tailRes.2)
    | none => (tailRes.1, u :: tailRes.2)

/-- The final deduplication of `extract_emails_from_website`: first-seen order,
keeping for each email the page hint it was first seen with. -/
def dedupEmails (seen : Finset String) : List (String × String) → List String × List String
  | [] => ([], [])
  | (e, src) :: rest =>
    if e ∈ seen then dedupEmails seen rest
    else
      let t := dedupEmails (insert e seen) rest
      (e :: t.1, src :: t.2)

/-- `extract_emails_from_website(website_url)`: the returned
`(unique emails, comma-joined source hints)` pair, plus (instrumentation) the
list of content URLs fetched.  Non-`http(s)` URLs return empty without any
fetch; a robots-disallowed URL returns empty with the `"robots_blocked"` hint
and no fetch. -/
def extract_emails_from_website (w : Web) (website_url : String)
    (max_pages : Nat := 2) : (List String × String) × List String :=
  if !(startsWithL website_url "http://" || startsWithL website_url "https://") then
    (([], ""), [])
  else if !(_check_robots_allowed w website_url) then
    (([], "robots_blocked"), [])
  else
    let collected := collectPages w 0 (_get_candidate_urls website_url max_pages)
    let dedup := dedupEmails ∅ collected.1
    ((dedup.1, joinComma dedup.2), collected.2)

end email_extractor

/-! ## `main.py` -/

namespace main

open places email_extractor

/-- `PlaceResult` (`utils/places.py`).  Numeric payloads (`latitude`,
`longitude`, `rating`, `user_ratings_total`) are carried in serialized form;
none of the verified properties inspects them. -/
structure PlaceResult where
  place_id : String
  name : String
  formatted_address : String
  latitude : String
  longitude : String
  website : String
  phone : String
  google_maps_url : String
  rating : String
  user_ratings_total : String
  types : List String
deriving DecidableEq, Repr

/-- `OSMPlace` (`utils/osm_places.py`).  Same payload convention.  Note the
dataclass declares no `owner` field. -/
structure OSMPlace where
  place_id : String
  name : String
  formatted_address : String
  latitude : String
  longitude : String
  website : String
  phone : String
  google_maps_url : String
  types : List String
deriving DecidableEq, Repr

/-- The lead record (the dict built by `place_to_lead` / `osm_place_to_lead`),
one field per CSV column. -/
structure Lead where
  niche : String
  city : String
  business_name : String
  first_name : String
  reviews_count : String
  formatted_address : String
  latitude : String
  longitude : String
  phone : String
  google_maps_url : String
  website_url : String
  rating : String
  ratings_count : String
  place_id : String
  emails_found : String
  email_source_page : String
  gmail_addresses : String
deriving DecidableEq, Repr

/-- `_gmail_addresses_from_emails(emails)`: semicolon-join of the emails whose
part after the last `@` (stripped, lower-cased) is `gmail.com` or
`googlemail.com`. -/
def _gmail_addresses_from_emails (emails : List String) : String :=
  let gmails := emails.filter fun e =>
    let d := String.mk (email_extractor.domainOfLastAt (pyStripChars (e.data.map Char.toLower)))
    d == "gmail.com" || d == "googlemail.com"
  if gmails.isEmpty then "" else joinSemi gmails

/-- `place_to_lead(place, niche, city)` (Google flow).  `getattr(place, "owner", "")`
is `""` because `PlaceResult` declares no `owner` field, so `first_name` is the
sentinel `"Nill"`. -/
def place_to_lead (place : PlaceResult) (niche city : String) : Lead :=
  { niche := niche
    city := city
    business_name := place.name
    first_name := "Nill"
    reviews_count := place.user_ratings_total
    formatted_address := place.formatted_address
    latitude := place.latitude
    longitude := place.longitude
    phone := if place.phone = "" then "Nill" else place.phone
    google_maps_url := place.google_maps_url
    website_url := if place.website = "" then "Nill" else place.website
    rating := place.rating
    ratings_count := place.user_ratings_total
    place_id := place.place_id
    emails_found := "Nill"
    email_source_page := ""
    gmail_addresses := "" }

/-- `osm_place_to_lead(place, niche, city)`: its first statement evaluates
`place.owner`, but the `OSMPlace` dataclass declares no `owner` field, so every
call raises `AttributeError` before the record is built. -/
def osm_place_to_lead (_place : OSMPlace) (_niche _city : String) : Except String Lead :=
  .error "AttributeError: 'OSMPlace' object has no attribute 'owner'"

/-- The fixed export column set of `export_csv`. -/
def exportColumns : List String :=
  ["niche", "city", "business_name", "phone", "google_maps_url", "website_url",
   "emails_found"]

/-- The projection of a lead onto the export columns (what `csv.DictWriter`
writes for one row, `extrasaction="ignore"`). -/
def leadRow (l : Lead) : List String :=
  [l.niche, l.city, l.business_name, l.phone, l.google_maps_url, l.website_url,
   l.emails_found]

/-- The row filter of `export_csv` when `require_email_and_website` is set:
`lead.get("emails_found")` truthy and stripped different from `"Nill"`, same
for `website_url`. -/
def contactableLead (l : Lead) : Bool :=
  (!(l.emails_found == "") && !(pyStrip l.emails_found == "Nill")) &&
  (!(l.website_url == "") && !(pyStrip l.website_url == "Nill"))

/-- `export_csv(leads, path, require_email_and_website)`: the written file, as
the list of its rows (header first). -/
def export_csv (leads : List Lead) (require_email_and_website : Bool := true) :
    List (List String) :=
  let rows := if require_email_and_website then leads.filter contactableLead else leads
  exportColumns :: rows.map leadRow

/-! ### Checkpoint store

The checkpoint file's JSON content, with the two Python sets serialized by
`list(...)` and re-read by `set(...)`. -/

/-- The in-memory ledger state `(leads, seen_place_ids, seen_domains)`. -/
structure LedgerState where
  leads : List Lead
  seen_place_ids : Finset String
  seen_domains : Finset String
deriving DecidableEq

/-- The checkpoint file content (`{"leads": ..., "seen_place_ids": ...,
"seen_domains": ...}`). -/
structure Checkpoint where
  leads : List Lead
  seen_place_ids : List String
  seen_domains : List String
deriving DecidableEq

/-- `save_checkpoint(leads, seen_place_ids, seen_domains)`: one JSON object,
sets written out as lists (`list(seen_place_ids)` — CPython's iteration order is
unspecified, modelled here by one concrete enumeration of the set). -/
def save_checkpoint (s : LedgerState) : Checkpoint :=
  { leads := s.leads
    seen_place_ids := s.seen_place_ids.sort (· ≤ ·)
    seen_domains := s.seen_domains.sort (· ≤ ·) }

/-- `load_checkpoint()` on an existing readable checkpoint file:
`set(data.get("seen_place_ids", []))` etc. -/
def load_checkpoint (c : Checkpoint) : LedgerState :=
  { leads := c.leads
    seen_place_ids := c.seen_place_ids.toFinset
    seen_domains := c.seen_domains.toFinset }

/-! ### The collection runners

The nested `for niche: for city:` loops with their two budget `break`s are
modelled as one loop over the ordered niche×city pair list with the budget
check at each pair (the two breaks test the same condition back to back, and
re-test it at the next loop head).  Checkpoint saves inside the loops perform
I/O only and do not change the run state, so they do not appear.  The
completion order of the per-batch thread pool (`as_completed`) is external
nondeterminism; it enters the model as a scheduling function `sched`, assumed
in the theorems to permute its input batch.  The `admitted` field of `RunState`
is ghost instrumentation recording `(place_id, extracted domain)` at every
ledger admission; it never influences control flow. -/

/-- A run state: the ledger plus the ghost admission trace. -/
structure RunState where
  ledger : LedgerState
  admitted : List (String × String)
deriving DecidableEq

/-- The domain `_run_osm` checks: `osm_get_domain(place.website) if place.website else ""`. -/
def osmDomainOf (p : OSMPlace) : String :=
  if p.website = "" then "" else places.get_domain_for_dedup p.website

/-- The email-field update both runners apply after
`extract_emails_from_website` succeeds. -/
def fillEmailFields (w : Web) (website : String) (lead : Lead) : Lead :=
  let r := (email_extractor.extract_emails_from_website w website).1
  { lead with
    emails_found := if r.1.isEmpty then "Nill" else joinSemi r.1
    email_source_page := r.2
    gmail_addresses := _gmail_addresses_from_emails r.1 }

/-- The `for place in places` loop body of `_run_google` (lines 328-349):
identity dedup, domain dedup (domain always recorded, empty or not), lead
construction with optional inline email extraction, append, budget break. -/
def googleLoop (w : Web) (extract_emails : Bool) (max_leads : Nat)
    (niche city : String) : RunState → List PlaceResult → RunState
  | s, [] => s
  | s, p :: ps =>
    if p.place_id ∈ s.ledger.seen_place_ids then
      googleLoop w extract_emails max_leads niche city s ps
    else
      let domain := places.get_domain_for_dedup p.website
      if domain ∈ s.ledger.seen_domains then
        googleLoop w extract_emails max_leads niche city s ps
      else
        let lead0 := place_to_lead p niche city
        let lead := if extract_emails && !(p.website == "") then
            fillEmailFields w p.website lead0
          else lead0
        let s' : RunState :=
          { ledger := { leads := s.ledger.leads ++ [lead]
                        seen_place_ids := insert p.place_id s.ledger.seen_place_ids
                        seen_domains := insert domain s.ledger.seen_domains }
            admitted := s.admitted ++ [(p.place_id, domain)] }
        if max_leads ≤ s'.ledger.leads.length then s'
        else googleLoop w extract_emails max_leads niche city s' ps

/-- `_run_google`: the niche×city loop around `googleLoop`; `fetch` is the
place-source adapter (`collect_places_for_niche_city`). -/
def _run_google (w : Web) (extract_emails : Bool) (max_leads : Nat)
    (fetch : String → String → List PlaceResult) :
    RunState → List (String × String) → RunState
  | s, [] => s
  | s, (n, c) :: rest =>
    if max_leads ≤ s.ledger.leads.length then s
    else _run_google w extract_emails max_leads fetch
      (googleLoop w extract_emails max_leads n c s (fetch n c)) rest

/-- The admission loop of `_run_osm` (lines 400-415): identity dedup, domain
dedup with the empty-domain exemption, then either queue the place as an email
candidate or build the lead inline.  `osm_place_to_lead` raises
(`OSMPlace` has no `owner` attribute), which the per-(niche,city) `try` catches:
the result's third component is true when the pass was aborted that way. -/
def osmPhase1 (extract_emails : Bool) (max_leads : Nat) (niche city : String) :
    RunState → List OSMPlace → List OSMPlace → RunState × List OSMPlace × Bool
  | s, cands, [] => (s, cands, false)
  | s, cands, p :: ps =>
    if p.place_id ∈ s.ledger.seen_place_ids then
      osmPhase1 extract_emails max_leads niche city s cands ps
    else
      let domain := osmDomainOf p
      if !(domain == "") && domain ∈ s.ledger.seen_domains then
        osmPhase1 extract_emails max_leads niche city s cands ps
      else
        let s' : RunState :=
          { ledger := { leads := s.ledger.leads
                        seen_place_ids := insert p.place_id s.ledger.seen_place_ids
                        seen_domains := if domain == "" then s.ledger.seen_domains
                          else insert domain s.ledger.seen_domains }
            admitted := s.admitted ++ [(p.place_id, domain)] }
        if extract_emails && !(p.website == "") then
          let cands' := cands ++ [p]
          if max_leads ≤ s'.ledger.leads.length then (s', cands', false)
          else osmPhase1 extract_emails max_leads niche city s' cands' ps
        else
          match osm_place_to_lead p niche city with
          | .ok lead =>
            let s'' : RunState :=
              { s' with ledger := { s'.ledger with leads := s'.ledger.leads ++ [lead] } }
            if max_leads ≤ s''.ledger.leads.length then (s'', cands, false)
            else osmPhase1 extract_emails max_leads niche city s'' cands ps
          | .error _ => (s', cands, true)

/-- `_process_place_emails(place, niche, city, sleep_web)` as run inside one
worker: build the lead (which raises — no `owner` attribute), then fill email
fields from the place's website. -/
def _process_place_emails (w : Web) (p : OSMPlace) (niche city : String) :
    Except String (Lead × Bool) :=
  match osm_place_to_lead p niche city with
  | .error e => .error e
  | .ok lead =>
    if p.website = "" then .ok (lead, false)
    else
      let r := (email_extractor.extract_emails_from_website w p.website).1
      .ok (fillEmailFields w p.website lead, !r.1.isEmpty)

/-- The `as_completed` drain loop of `_run_osm` (lines 428-437): results arrive
in completion order; each is appended unless the budget is already reached, and
a worker exception is logged and skipped. -/
def osmPhase2 (max_leads : Nat) :
    RunState → List (Except String (Lead × Bool)) → RunState
  | s, [] => s
  | s, r :: rs =>
    if max_leads ≤ s.ledger.leads.length then s
    else match r with
      | .ok (lead, _) => osmPhase2 max_leads
          { s with ledger := { s.ledger with leads := s.ledger.leads ++ [lead] } } rs
      | .error _ => osmPhase2 max_leads s rs

/-- One (niche, city) pass of `_run_osm`: admission phase, then — unless the
pass aborted or produced no candidates — the parallel email phase over the
candidates in completion order `sched`. -/
def osmCityPass (w : Web) (sched : List OSMPlace → List OSMPlace)
    (extract_emails : Bool) (max_leads : Nat) (niche city : String)
    (s : RunState) (ps : List OSMPlace) : RunState :=
  let r := osmPhase1 extract_emails max_leads niche city s [] ps
  if r.2.2 then r.1
  else if r.2.1.isEmpty then r.1
  else osmPhase2 max_leads r.1
    ((sched r.2.1).map (fun p => _process_place_emails w p niche city))

/-- `_run_osm`: the niche×city loop around `osmCityPass`; `fetch` is
`collect_osm_places_for_niche_city`. -/
def _run_osm (w : Web) (sched : List OSMPlace → List OSMPlace)
    (extract_emails : Bool) (max_leads : Nat)
    (fetch : String → String → List OSMPlace) :
    RunState → List (String × String) → RunState
  | s, [] => s
  | s, (n, c) :: rest =>
    if max_leads ≤ s.ledger.leads.length then s
    else _run_osm w sched extract_emails max_leads fetch
      (osmCityPass w sched extract_emails max_leads n c s (fetch n c)) rest

/-- The ordered niche×city pair list the runners iterate. -/
def pairsOf (niches cities : List String) : List (String × String) :=
  niches.flatMap (fun n => cities.map (fun c => (n, c)))

/-- `run_collection(niches, cities, max_leads, extract_emails, source, ...)`:
validation, checkpoint load (the `checkpoint` argument is the file content
after the optional `clear_checkpoint` deletion — an empty `Checkpoint` when
cleared or absent), the dead early-exit guard
`len(leads) >= max_leads and not (niches and cities)` written exactly as in the
source, the chosen runner, and the final export.  The final `save_checkpoint`
performs I/O only.  Returns the rows of the written CSV. -/
def run_collection (w : Web) (sched : List OSMPlace → List OSMPlace)
    (source : String) (extract_emails : Bool) (max_leads : Nat)
    (checkpoint : Checkpoint)
    (fetchOSM : String → String → List OSMPlace)
    (fetchG : String → String → List PlaceResult)
    (niches cities : List String) : Except String (List (List String)) :=
  if niches.isEmpty || cities.isEmpty then
    .error "niches and cities must be non-empty lists"
  else
    let lg := load_checkpoint checkpoint
    if max_leads ≤ lg.leads.length ∧ (niches.isEmpty ∨ cities.isEmpty) then
      .ok (export_csv lg.leads)
    else
      let s0 : RunState := ⟨lg, []⟩
      let s1 :=
        if source = "google" then
          _run_google w extract_emails max_leads fetchG s0 (pairsOf niches cities)
        else
          _run_osm w sched extract_emails max_leads fetchOSM s0 (pairsOf niches cities)
      .ok (export_csv s1.ledger.leads)

end main

/-! ## General list lemmas used throughout the proofs -/

theorem dropWhile_eq_self_of_head {p : Char → Bool} {c : Char} {l : List Char}
    (h : p c = false) : (c :: l).dropWhile p = c :: l := by
  simp [List.dropWhile, h]

theorem dropWhile_append_stop {p : Char → Bool} {c : Char} (h : p c = false) :
    ∀ (u v : List Char), (u ++ c :: v).dropWhile p = u.dropWhile p ++ c :: v := by
  intro u v
  induction u with
  | nil => simp [List.dropWhile, h]
  | cons x xs ih =>
    cases hx : p x with
    | true => simp [List.dropWhile, hx, ih]
    | false => simp [List.dropWhile, hx]

theorem dropWhile_eq_self_of_forall {p : Char → Bool} {l : List Char}
    (h : ∀ c ∈ l, p c = false) : l.dropWhile p = l := by
  cases l with
  | nil => rfl
  | cons c t => exact dropWhile_eq_self_of_head (h c (by simp))

theorem dropWhile_forall_drop {p : Char → Bool} :
    ∀ {u v : List Char}, (∀ c ∈ u, p c = true) → (u ++ v).dropWhile p = v.dropWhile p := by
  intro u v h
  induction u with
  | nil => rfl
  | cons x xs ih =>
    have hx : p x = true := h x (by simp)
    simp only [List.cons_append, List.dropWhile, hx]
    exact ih (fun c hc => h c (by simp [hc]))

theorem takeWhile_append_stop {p : Char → Bool} {c : Char} (hc : p c = false) :
    ∀ {u v : List Char}, (∀ x ∈ u, p x = true) → (u ++ c :: v).takeWhile p = u := by
  intro u v h
  induction u with
  | nil => simp [List.takeWhile, hc]
  | cons x xs ih =>
    have hx : p x = true := h x (by simp)
    simp only [List.cons_append, List.takeWhile, hx]
    simp [ih (fun y hy => h y (by simp [hy]))]

theorem mem_dropWhile_of_mem {p : Char → Bool} {c : Char} :
    ∀ {l : List Char}, c ∈ l → p c = false → c ∈ l.dropWhile p := by
  intro l hc hpc
  induction l with
  | nil => cases hc
  | cons x xs ih =>
    by_cases hx : p x = true
    · simp only [List.dropWhile, hx]
      rcases List.mem_cons.mp hc with h | h
      · exact absurd (h ▸ hx) (by simp [hpc])
      · exact ih h
    · simpa [List.dropWhile, Bool.eq_false_iff.mpr hx] using hc

theorem mem_of_mem_dropWhile {p : Char → Bool} {c : Char} :
    ∀ {l : List Char}, c ∈ l.dropWhile p → c ∈ l := by
  intro l hc
  exact List.dropWhile_sublist p |>.mem hc

theorem mem_of_mem_pyRStripBy {p : Char → Bool} {c : Char} {l : List Char}
    (h : c ∈ pyRStripBy p l) : c ∈ l := by
  unfold pyRStripBy at h
  have := mem_of_mem_dropWhile (List.mem_reverse.mp h)
  exact List.mem_reverse.mp this

theorem mem_of_mem_pyStripChars {c : Char} {l : List Char}
    (h : c ∈ pyStripChars l) : c ∈ l := by
  unfold pyStripChars at h
  exact mem_of_mem_dropWhile (mem_of_mem_pyRStripBy h)

theorem pyStripChars_eq_self {l : List Char}
    (h : ∀ c ∈ l, c.isWhitespace = false) : pyStripChars l = l := by
  unfold pyStripChars pyLStrip pyRStripBy
  rw [dropWhile_eq_self_of_forall h]
  rw [dropWhile_eq_self_of_forall (fun c hc => h c (List.mem_reverse.mp hc))]
  exact List.reverse_reverse l

theorem head_not_of_dropWhile {p : Char → Bool} :
    ∀ {l : List Char} {c : Char}, (l.dropWhile p).head? = some c → p c = false := by
  intro l
  induction l with
  | nil => intro c h; cases h
  | cons x xs ih =>
    intro c h
    by_cases hx : p x = true
    · exact ih (by simpa [List.dropWhile, hx] using h)
    · have hx' : p x = false := Bool.eq_false_iff.mpr hx
      rw [dropWhile_eq_self_of_head hx'] at h
      cases h
      exact hx'

theorem getLast?_pyRStripBy {p : Char → Bool} {l : List Char} {c : Char}
    (h : (pyRStripBy p l).getLast? = some c) : p c = false := by
  unfold pyRStripBy at h
  rw [List.getLast?_reverse] at h
  exact head_not_of_dropWhile h

theorem head?_append_left {a b : List Char} (h : a ≠ []) : (a ++ b).head? = a.head? := by
  cases a <;> simp_all

theorem getLast?_append_right (a : List Char) {b : List Char} (h : b ≠ []) :
    (a ++ b).getLast? = b.getLast? := by
  have h1 : (a ++ b).reverse.head? = (a ++ b).getLast? := by simp
  have h2 : b.reverse.head? = b.getLast? := by simp
  rw [← h1, ← h2, List.reverse_append]
  exact head?_append_left (by simpa using h)

theorem isPrefixOf_append_self (p r : List Char) : p.isPrefixOf (p ++ r) = true := by
  induction p with
  | nil => simp [List.isPrefixOf]
  | cons c t ih => simp [List.isPrefixOf, ih]

theorem mem_pyRStripBy_of_mem {p : Char → Bool} {c : Char} {l : List Char}
    (hp : p c = false) (hc : c ∈ l) : c ∈ pyRStripBy p l := by
  unfold pyRStripBy
  exact List.mem_reverse.mpr (mem_dropWhile_of_mem (List.mem_reverse.mpr hc) hp)

theorem mem_pyStripChars_of_mem {c : Char} {l : List Char}
    (hw : c.isWhitespace = false) (hc : c ∈ l) : c ∈ pyStripChars l := by
  unfold pyStripChars pyLStrip
  exact mem_pyRStripBy_of_mem hw (mem_dropWhile_of_mem hc hw)

namespace places

/-! ### Facts about `_normalize_website` (claim C5) -/

theorem normalizeCore_no_question (l : List Char) : '?' ∉ normalizeCore l := by
  unfold normalizeCore
  by_cases hq : (pyStripChars l).contains '?' = true
  · simp only [hq, if_true]
    intro hmem
    have h1 := mem_of_mem_pyRStripBy hmem
    have h2 := List.mem_takeWhile_imp h1
    simp at h2
  · have hq' : (pyStripChars l).contains '?' = false := Bool.eq_false_iff.mpr hq
    simp only [hq', Bool.false_eq_true, if_false]
    intro hmem
    rw [Bool.eq_false_iff] at hq'
    exact hq' (by simpa using hmem)

theorem startsHttpLower_prepend (u : List Char) :
    startsHttpLower ("https://".data ++ u) = true := by
  unfold startsHttpLower
  have hmap : ("https://".data ++ u).map Char.toLower
      = "https://".data ++ u.map Char.toLower := by
    rw [List.map_append]
    congr 1
  rw [hmap]
  simp [isPrefixOf_append_self]

theorem normalizeChars_no_question (l : List Char) : '?' ∉ normalizeChars l := by
  unfold normalizeChars
  by_cases hb : (!(normalizeCore l).isEmpty && !startsHttpLower (normalizeCore l)) = true
  · simp only [hb, if_true]
    intro hmem
    rcases List.mem_append.mp hmem with h | h
    · simp at h
    · exact normalizeCore_no_question l h
  · have hb' := Bool.eq_false_iff.mpr hb
    simp only [hb', Bool.false_eq_true, if_false]
    exact normalizeCore_no_question l

theorem normalizeChars_scheme {l : List Char} (h : normalizeChars l ≠ []) :
    startsHttpLower (normalizeChars l) = true := by
  unfold normalizeChars at h ⊢
  by_cases hb : (!(normalizeCore l).isEmpty && !startsHttpLower (normalizeCore l)) = true
  · simp only [hb, if_true] at h ⊢
    exact startsHttpLower_prepend _
  · have hb' : (!(normalizeCore l).isEmpty && !startsHttpLower (normalizeCore l)) = false :=
      Bool.eq_false_iff.mpr hb
    simp only [hb', Bool.false_eq_true, if_false] at h ⊢
    cases he : (normalizeCore l).isEmpty with
    | true => exact absurd (by simpa using he) h
    | false =>
      cases hs : startsHttpLower (normalizeCore l) with
      | true => exact hs ▸ rfl
      | false => rw [he, hs] at hb'; simp at hb'

theorem normalizeChars_no_trailing_slash {l : List Char}
    (hq : l.contains '?' = true) :
    (normalizeChars l).getLast? ≠ some '/' := by
  have hql : '?' ∈ l := by simpa using hq
  have hqs : ('?' : Char) ∈ pyStripChars l := mem_pyStripChars_of_mem (by decide) hql
  have hqb : (pyStripChars l).contains '?' = true := by simpa using hqs
  have hcore : normalizeCore l
      = pyRStripBy (fun c => c == '/')
          ((pyStripChars l).takeWhile (fun c => !(c == '?'))) := by
    unfold normalizeCore
    simp only [hqb, if_true]
  have hnoslash : (normalizeCore l).getLast? ≠ some '/' := by
    rw [hcore]
    intro hlast
    have := getLast?_pyRStripBy hlast
    simp at this
  unfold normalizeChars
  by_cases hb : (!(normalizeCore l).isEmpty && !startsHttpLower (normalizeCore l)) = true
  · simp only [hb, if_true]
    have hne : normalizeCore l ≠ [] := by
      rcases Bool.and_eq_true_iff.mp hb with ⟨h1, _⟩
      simpa using h1
    rw [getLast?_append_right _ hne]
    exact hnoslash
  · have hb' := Bool.eq_false_iff.mpr hb
    simp only [hb', Bool.false_eq_true, if_false]
    exact hnoslash

theorem mem_normalizeCore_sub {c : Char} {l : List Char}
    (h : c ∈ normalizeCore l) : c ∈ l := by
  unfold normalizeCore at h
  by_cases hq : (pyStripChars l).contains '?' = true
  · simp only [hq, if_true] at h
    have h1 := mem_of_mem_pyRStripBy h
    have h2 := (List.takeWhile_sublist _).mem h1
    exact mem_of_mem_pyStripChars h2
  · have hq' := Bool.eq_false_iff.mpr hq
    simp only [hq', Bool.false_eq_true, if_false] at h
    exact mem_of_mem_pyStripChars h

theorem mem_normalizeChars_sub {c : Char} {l : List Char}
    (h : c ∈ normalizeChars l) : c ∈ "https://".data ∨ c ∈ l := by
  unfold normalizeChars at h
  by_cases hb : (!(normalizeCore l).isEmpty && !startsHttpLower (normalizeCore l)) = true
  · simp only [hb, if_true] at h
    rcases List.mem_append.mp h with h1 | h1
    · exact Or.inl h1
    · exact Or.inr (mem_normalizeCore_sub h1)
  · have hb' := Bool.eq_false_iff.mpr hb
    simp only [hb', Bool.false_eq_true, if_false] at h
    exact Or.inr (mem_normalizeCore_sub h)

theorem normalizeChars_fixed {m : List Char}
    (hws : ∀ c ∈ m, c.isWhitespace = false) (hq : '?' ∉ m)
    (hsch : m ≠ [] → startsHttpLower m = true) : normalizeChars m = m := by
  have hstrip : pyStripChars m = m := pyStripChars_eq_self hws
  have hcont : m.contains '?' = false := by
    rw [Bool.eq_false_iff]
    intro hc
    exact hq (by simpa using hc)
  have hcore : normalizeCore m = m := by
    unfold normalizeCore
    rw [hstrip]
    simp [hcont, hq]
  unfold normalizeChars
  rw [hcore]
  by_cases hme : m = []
  · subst hme; simp
  · have hs := hsch hme
    simp [hs]

theorem normalizeChars_idempotent {l : List Char}
    (hws : ∀ c ∈ l, c.isWhitespace = false) :
    normalizeChars (normalizeChars l) = normalizeChars l := by
  have hhttps : ∀ c ∈ "https://".data, c.isWhitespace = false := by decide
  apply normalizeChars_fixed
  · intro c hc
    rcases mem_normalizeChars_sub hc with h | h
    · exact hhttps c h
    · exact hws c h
  · exact normalizeChars_no_question l
  · exact fun h => normalizeChars_scheme h

/-- C5 counterexample.  The claim asserts every non-empty normalized website has
no trailing slash and that normalization is idempotent on every input; but
`"https://example.com/"` normalizes to itself, keeping its trailing slash (the
`rstrip("/")` only runs in the query-string branch), and on `"a ?c"` (whitespace
before the `?`) a second normalization changes the result, because the first
pass leaves a trailing space that only the second pass strips. -/
theorem C5_normalization_counterexample :
    (_normalize_website "https://example.com/" = "https://example.com/"
      ∧ (_normalize_website "https://example.com/").data.getLast? = some '/')
    ∧ (_normalize_website "a ?c" = "https://a "
      ∧ _normalize_website (_normalize_website "a ?c") ≠ _normalize_website "a ?c") := by
  exact ⟨⟨by decide, by decide⟩, by decide, by decide⟩

/-- C5 amended (proved).  For every input: the normalized website contains no
query string (no `?`); a non-empty result starts (case-insensitively) with
`http://` or `https://`; the trailing slash is guaranteed stripped only when
the input contained a `?` (otherwise it is preserved, per the counterexample);
normalization is idempotent on inputs without whitespace (the counterexample
shows an internal whitespace breaking it); and the two examples
`"example.com" → "https://example.com"` and
`"http://example.com?utm_source=fb" → "http://example.com"` hold. -/
theorem C5_website_normalization (s : String) :
    ('?' ∉ (_normalize_website s).data)
    ∧ ((_normalize_website s).data ≠ [] →
        startsHttpLower (_normalize_website s).data = true)
    ∧ (s.data.contains '?' = true → (_normalize_website s).data.getLast? ≠ some '/')
    ∧ ((∀ c ∈ s.data, c.isWhitespace = false) →
        _normalize_website (_normalize_website s) = _normalize_website s)
    ∧ _normalize_website "example.com" = "https://example.com"
    ∧ _normalize_website "http://example.com?utm_source=fb" = "http://example.com" := by
  refine ⟨?_, ?_, ?_, ?_, by decide, by decide⟩
  · exact normalizeChars_no_question s.data
  · exact fun h => normalizeChars_scheme h
  · exact fun hq => normalizeChars_no_trailing_slash hq
  · exact fun hws => congrArg String.mk (normalizeChars_idempotent hws)

/-- Witness for the amended C5 at concrete inputs. -/
theorem C5_website_normalization_witness :
    startsHttpLower (_normalize_website "x.de").data = true
    ∧ (_normalize_website "http://x.de?a=1").data.getLast? ≠ some '/'
    ∧ _normalize_website (_normalize_website "example.com")
        = _normalize_website "example.com" :=
  ⟨(C5_website_normalization "x.de").2.1 (by decide),
   (C5_website_normalization "http://x.de?a=1").2.2.1 (by decide),
   (C5_website_normalization "example.com").2.2.2.1 (by decide)⟩

/-! ### Facts about `get_domain_for_dedup` (claim C6) -/

/-- Modelled from the claim's words: the host with only one leading `"www."`
stripped (a prefix operation, by contrast with the module's `str.replace`). -/
def stripLeadingWWW (l : List Char) : List Char :=
  if ['w', 'w', 'w', '.'].isPrefixOf l then l.drop 4 else l

/-- Whether `"www."` occurs anywhere in the string. -/
def occursWWW : List Char → Bool
  | [] => false
  | c :: t => (['w', 'w', 'w', '.'].isPrefixOf (c :: t)) || occursWWW t

theorem replaceWWW_cons_of_ne (c : Char) (rest : List Char)
    (h : ['w', 'w', 'w', '.'].isPrefixOf (c :: rest) = false) :
    replaceWWW (c :: rest) = c :: replaceWWW rest := by
  rw [replaceWWW.eq_def]
  split
  · rename_i tail heq
    rw [heq] at h
    simp [List.isPrefixOf] at h
  · rename_i c' rest' heq
    injection heq with h1 h2
    rw [h1, h2]
  · rename_i heq
    cases heq

theorem replaceWWW_eq_self : ∀ (m : List Char), occursWWW m = false → replaceWWW m = m := by
  intro m
  induction m with
  | nil => intro _; rfl
  | cons c t ih =>
    intro h
    simp only [occursWWW, Bool.or_eq_false_iff] at h
    rw [replaceWWW_cons_of_ne c t h.1, ih h.2]

theorem isPrefixOf4_exists {a b c d : Char} {l : List Char}
    (h : ([a, b, c, d].isPrefixOf l) = true) : ∃ t, l = a :: b :: c :: d :: t := by
  cases l with
  | nil => simp [List.isPrefixOf] at h
  | cons x1 l1 =>
    cases l1 with
    | nil => simp [List.isPrefixOf] at h
    | cons x2 l2 =>
      cases l2 with
      | nil => simp [List.isPrefixOf] at h
      | cons x3 l3 =>
        cases l3 with
        | nil => simp [List.isPrefixOf] at h
        | cons x4 l4 =>
          simp only [List.isPrefixOf, Bool.and_eq_true, beq_iff_eq] at h
          obtain ⟨h1, h2, h3, h4, -⟩ := h
          exact ⟨l4, by rw [h1, h2, h3, h4]⟩

theorem replaceWWW_of_leading_only (g : List Char)
    (h : occursWWW (stripLeadingWWW g) = false) :
    replaceWWW g = stripLeadingWWW g := by
  unfold stripLeadingWWW at *
  by_cases hp : (['w', 'w', 'w', '.'].isPrefixOf g) = true
  · obtain ⟨t, rfl⟩ := isPrefixOf4_exists hp
    simp only [hp, if_true, List.drop_succ_cons, List.drop_zero] at *
    rw [replaceWWW.eq_1]
    exact replaceWWW_eq_self t h
  · have hp' := Bool.eq_false_iff.mpr hp
    simp only [hp', Bool.false_eq_true, if_false] at *
    exact replaceWWW_eq_self g h

/-- C6 counterexample.  The claim says the recorded dedup domain is the host
lower-cased with only a leading `"www."` prefix stripped and no other part of
the host altered; but the code's `host.lower().replace("www.", "")` removes
every occurrence: on host `"www.www.com"` the claim's reading gives
`"www.com"` while the code records `"com"`. -/
theorem C6_domain_counterexample :
    get_domain_for_dedup "https://www.www.com" = "com"
    ∧ hostOf "https://www.www.com".data = "www.www.com".data
    ∧ String.mk (stripLeadingWWW ("www.www.com".data.map Char.toLower)) = "www.com"
    ∧ ("com" : String) ≠ "www.com" := by
  exact ⟨by decide, by decide, by decide, by decide⟩

/-- C6 amended (proved).  When `urlparse` raises (a netloc with unbalanced
brackets), the `except` path records the raw URL unchanged; otherwise the
recorded dedup domain is the URL's host lower-cased with every occurrence of
`"www."` removed (Python `str.replace` is unanchored) — and in particular,
whenever `"www."` occurs in the lower-cased host only as a leading prefix
(if at all), this coincides with stripping one leading `"www."` and leaving
the rest of the host unaltered. -/
theorem C6_domain_normalization (url : String) :
    (urlparseOk url.data = false → get_domain_for_dedup url = url)
    ∧ (urlparseOk url.data = true →
        occursWWW (stripLeadingWWW ((hostOf url.data).map Char.toLower)) = false →
        get_domain_for_dedup url
          = String.mk (stripLeadingWWW ((hostOf url.data).map Char.toLower))) := by
  constructor
  · intro hbad
    unfold get_domain_for_dedup
    simp only [hbad, Bool.false_eq_true, if_false]
  · intro hok h
    unfold get_domain_for_dedup
    simp only [hok, if_true]
    exact congrArg String.mk (replaceWWW_of_leading_only _ h)

/-- Witness for the amended C6: a bracket URL on which `urlparse` raises is
recorded raw, and a host with one leading `www.` is recorded with exactly that
prefix stripped. -/
theorem C6_domain_normalization_witness :
    get_domain_for_dedup "https://[ab" = "https://[ab"
    ∧ get_domain_for_dedup "https://www.Example.com/kontakt" = "example.com" := by
  constructor
  · exact (C6_domain_normalization "https://[ab").1 (by decide)
  · rw [(C6_domain_normalization "https://www.Example.com/kontakt").2 (by decide) (by decide)]
    decide

end places

namespace email_extractor

/-! ### Facts about `_is_valid_email` (claim C7) -/

theorem hexIdChar_not_ws {c : Char} (h : hexIdChar c = true) : c.isWhitespace = false := by
  rw [Bool.eq_false_iff]
  intro hw
  simp only [Char.isWhitespace, Bool.or_eq_true, decide_eq_true_eq] at hw
  rcases hw with ((rfl | rfl) | rfl) | rfl <;> exact absurd h (by decide)

theorem pyStripChars_append_at {a b : List Char}
    (ha : ∀ c ∈ a, c.isWhitespace = false) (hane : a ≠ []) :
    pyStripChars (a ++ '@' :: b) = a ++ '@' :: pyRStripBy Char.isWhitespace b := by
  obtain ⟨x, xs, rfl⟩ : ∃ x xs, a = x :: xs := by
    cases a with
    | nil => exact absurd rfl hane
    | cons x xs => exact ⟨x, xs, rfl⟩
  unfold pyStripChars pyLStrip pyRStripBy
  rw [List.cons_append, dropWhile_eq_self_of_head (ha x (by simp))]
  rw [← List.cons_append, List.reverse_append, List.reverse_cons, List.append_assoc,
    List.singleton_append]
  rw [dropWhile_append_stop (by decide) b.reverse _]
  simp

theorem localOfLastAt_append {a b : List Char} (hb : '@' ∉ b) :
    localOfLastAt (a ++ '@' :: b) = a := by
  have hpred : ∀ c ∈ b.reverse, (!(c == '@')) = true := by
    intro c hc
    have hne : c ≠ '@' := fun hc' => hb (hc' ▸ List.mem_reverse.mp hc)
    simp [hne]
  unfold localOfLastAt
  rw [List.reverse_append, List.reverse_cons, List.append_assoc, List.singleton_append]
  rw [dropWhile_forall_drop hpred]
  rw [dropWhile_eq_self_of_head (by decide)]
  simp

theorem valid_email_hex_reject (lp dp : List Char)
    (hlen : 20 ≤ lp.length)
    (hhex : ∀ c ∈ lp, hexIdChar (Char.toLower c) = true)
    (hdp : ∀ c ∈ dp, Char.toLower c ≠ '@') :
    _is_valid_email (String.mk (lp ++ '@' :: dp)) = false := by
  have hmap : (lp ++ '@' :: dp).map Char.toLower
      = lp.map Char.toLower ++ '@' :: dp.map Char.toLower := by
    rw [List.map_append, List.map_cons]
    have hat : '@'.toLower = '@' := by decide
    rw [hat]
  have hlpne : lp.map Char.toLower ≠ [] := by
    intro hcon
    have h0 : lp.length = 0 := by simpa using congrArg List.length hcon
    omega
  have hwsl : ∀ c ∈ lp.map Char.toLower, c.isWhitespace = false := by
    intro c hc
    obtain ⟨c0, hc0, rfl⟩ := List.mem_map.mp hc
    exact hexIdChar_not_ws (hhex c0 hc0)
  have hel : pyStripChars ((lp ++ '@' :: dp).map Char.toLower)
      = lp.map Char.toLower ++ '@' :: pyRStripBy Char.isWhitespace (dp.map Char.toLower) := by
    rw [hmap]
    exact pyStripChars_append_at hwsl hlpne
  have hnoAtD : '@' ∉ pyRStripBy Char.isWhitespace (dp.map Char.toLower) := by
    intro hc
    obtain ⟨c0, hc0, he⟩ := List.mem_map.mp (mem_of_mem_pyRStripBy hc)
    exact hdp c0 hc0 he
  have hlocal : localOfLastAt (pyStripChars ((lp ++ '@' :: dp).map Char.toLower))
      = lp.map Char.toLower := by
    rw [hel]
    exact localOfLastAt_append hnoAtD
  have hhexm : hexIdMatch (lp.map Char.toLower) = true := by
    unfold hexIdMatch
    refine Bool.and_eq_true_iff.mpr ⟨?_, ?_⟩
    · simp [hlen]
    · rw [List.all_eq_true]
      intro c hc
      obtain ⟨c0, hc0, rfl⟩ := List.mem_map.mp hc
      exact hhex c0 hc0
  have hdata : (String.mk (lp ++ '@' :: dp)).data = lp ++ '@' :: dp := rfl
  unfold _is_valid_email
  simp only [hdata, hel, hlocal, hhexm, if_true, ite_self, eq_self_iff_true]
  rw [hel] at hlocal
  simp only [hlocal, hhexm, if_true, ite_self]

theorem valid_email_png_reject (e : String)
    (h : containsSub ".png".data e.data = true) : _is_valid_email e = false := by
  unfold _is_valid_email
  simp only [h, Bool.or_true, Bool.true_or, if_true, ite_self]

/-- C7 (confirmed).  The email validity filter accepts `"info@business.de"`,
rejects `"support@example.com"` (placeholder domain), rejects every address
whose local part (everything before the last `@`, here with an `@`-free domain
part) is a pure-hex string of 20 or more characters, and rejects every address
containing the substring `".png"`. -/
theorem C7_email_validity :
    _is_valid_email "info@business.de" = true
    ∧ _is_valid_email "support@example.com" = false
    ∧ (∀ lp dp : List Char, 20 ≤ lp.length →
        (∀ c ∈ lp, hexIdChar (Char.toLower c) = true) →
        (∀ c ∈ dp, Char.toLower c ≠ '@') →
        _is_valid_email (String.mk (lp ++ '@' :: dp)) = false)
    ∧ (∀ e : String, containsSub ".png".data e.data = true →
        _is_valid_email e = false) :=
  ⟨by decide, by decide, valid_email_hex_reject, valid_email_png_reject⟩

/-- Witness for C7 at concrete inputs: a 20-character hex local part and a
`.png`-containing address, both rejected. -/
theorem C7_email_validity_witness :
    _is_valid_email (String.mk ("d41d8cd98f00b204e980".data ++ '@' :: "web.de".data)) = false
    ∧ _is_valid_email "logo@assets.png.example" = false :=
  ⟨C7_email_validity.2.2.1 "d41d8cd98f00b204e980".data "web.de".data
      (by decide) (by decide) (by decide),
   C7_email_validity.2.2.2 "logo@assets.png.example" (by decide)⟩

end email_extractor

namespace main

/-! ## Claim C4: checkpoint round-trip -/

theorem load_checkpoint_save_checkpoint (s : LedgerState) :
    load_checkpoint (save_checkpoint s) = s := by
  cases s with
  | mk a b c =>
    simp only [load_checkpoint, save_checkpoint]
    congr 1 <;> ext x <;> simp [List.mem_toFinset, Finset.mem_sort]

/-- C4 (confirmed).  Checkpoint round-trip: for every ledger state, saving with
`save_checkpoint` and re-reading with `load_checkpoint` reproduces an equal set
of identity keys, an equal set of domains, and the same lead records in the
same order (the three components are one structure, so this is stated as full
state equality). -/
theorem C4_checkpoint_round_trip (s : LedgerState) :
    load_checkpoint (save_checkpoint s) = s :=
  load_checkpoint_save_checkpoint s

/-! ### Structural lemmas about the runners -/

theorem osmPhase2_sets (m : Nat) :
    ∀ (rs : List (Except String (Lead × Bool))) (s : RunState),
      (osmPhase2 m s rs).admitted = s.admitted
      ∧ (osmPhase2 m s rs).ledger.seen_place_ids = s.ledger.seen_place_ids
      ∧ (osmPhase2 m s rs).ledger.seen_domains = s.ledger.seen_domains := by
  intro rs
  induction rs with
  | nil => intro s; exact ⟨rfl, rfl, rfl⟩
  | cons r rest ih =>
    intro s
    unfold osmPhase2
    by_cases h : m ≤ s.ledger.leads.length
    · simp [if_pos h]
    · simp only [if_neg h]
      cases r with
      | ok lb => exact ih _
      | error e => exact ih s

theorem osmPhase2_len (m : Nat) :
    ∀ (rs : List (Except String (Lead × Bool))) (s : RunState),
      (osmPhase2 m s rs).ledger.leads.length ≤ Nat.max s.ledger.leads.length m := by
  intro rs
  induction rs with
  | nil => intro s; exact Nat.le_max_left _ _
  | cons r rest ih =>
    intro s
    unfold osmPhase2
    by_cases h : m ≤ s.ledger.leads.length
    · simp only [if_pos h]
      exact Nat.le_max_left _ _
    · simp only [if_neg h]
      cases r with
      | ok lb =>
        obtain ⟨lead, hasEmail⟩ := lb
        refine le_trans (ih _) ?_
        apply Nat.max_le.mpr
        constructor
        · have hlen : (s.ledger.leads ++ [lead]).length = s.ledger.leads.length + 1 := by
            simp
          rw [hlen]
          have : s.ledger.leads.length + 1 ≤ m := by omega
          exact le_trans this (Nat.le_max_right _ _)
        · exact Nat.le_max_right _ _
      | error e => exact ih s

theorem osmPhase1_len (e : Bool) (m : Nat) (n c : String) :
    ∀ (ps : List OSMPlace) (s : RunState) (cands : List OSMPlace),
      s.ledger.leads.length < m →
      ((osmPhase1 e m n c s cands ps).1).ledger.leads.length ≤ m := by
  intro ps
  induction ps with
  | nil => intro s cands h; exact le_of_lt h
  | cons p rest ih =>
    intro s cands h
    unfold osmPhase1
    by_cases h1 : p.place_id ∈ s.ledger.seen_place_ids
    · simp only [if_pos h1]
      exact ih s cands h
    · simp only [if_neg h1]
      by_cases h2 : (!(osmDomainOf p == "") && osmDomainOf p ∈ s.ledger.seen_domains) = true
      · simp only [if_pos h2]
        exact ih s cands h
      · simp only [if_neg h2]
        by_cases h3 : (e && !(p.website == "")) = true
        · simp only [if_pos h3]
          by_cases h4 : m ≤ s.ledger.leads.length
          · simp only [if_pos h4]
            exact le_of_lt h
          · simp only [if_neg h4]
            exact ih _ _ h
        · simp only [if_neg h3]
          simp only [osm_place_to_lead]
          exact le_of_lt h

theorem osmCityPass_len (w : email_extractor.Web) (sched : List OSMPlace → List OSMPlace)
    (e : Bool) (m : Nat) (n c : String) (s : RunState) (ps : List OSMPlace)
    (h : s.ledger.leads.length < m) :
    (osmCityPass w sched e m n c s ps).ledger.leads.length ≤ m := by
  unfold osmCityPass
  have h1 := osmPhase1_len e m n c ps s [] h
  by_cases hb : (osmPhase1 e m n c s [] ps).2.2 = true
  · simp only [hb, if_true]
    exact h1
  · simp only [Bool.eq_false_iff.mpr hb, Bool.false_eq_true, if_false]
    by_cases hc : (osmPhase1 e m n c s [] ps).2.1.isEmpty = true
    · simp only [hc, if_true]
      exact h1
    · simp only [Bool.eq_false_iff.mpr hc, Bool.false_eq_true, if_false]
      refine le_trans (osmPhase2_len m _ _) ?_
      exact Nat.max_le.mpr ⟨h1, le_refl m⟩

theorem _run_osm_len (w : email_extractor.Web) (sched : List OSMPlace → List OSMPlace)
    (e : Bool) (m : Nat) (fetch : String → String → List OSMPlace) :
    ∀ (pairs : List (String × String)) (s : RunState),
      (_run_osm w sched e m fetch s pairs).ledger.leads.length
        ≤ Nat.max s.ledger.leads.length m := by
  intro pairs
  induction pairs with
  | nil => intro s; exact Nat.le_max_left _ _
  | cons pr rest ih =>
    intro s
    obtain ⟨n, c⟩ := pr
    unfold _run_osm
    by_cases h : m ≤ s.ledger.leads.length
    · simp only [if_pos h]
      exact Nat.le_max_left _ _
    · simp only [if_neg h]
      refine le_trans (ih _) ?_
      have hcity := osmCityPass_len w sched e m n c s (fetch n c) (by omega)
      exact Nat.max_le.mpr ⟨le_trans hcity (Nat.le_max_right _ _), Nat.le_max_right _ _⟩

theorem googleLoop_len (w : email_extractor.Web) (e : Bool) (m : Nat) (n c : String) :
    ∀ (ps : List PlaceResult) (s : RunState),
      s.ledger.leads.length < m →
      (googleLoop w e m n c s ps).ledger.leads.length ≤ m := by
  intro ps
  induction ps with
  | nil => intro s h; exact le_of_lt h
  | cons p rest ih =>
    intro s h
    unfold googleLoop
    by_cases h1 : p.place_id ∈ s.ledger.seen_place_ids
    · simp only [if_pos h1]
      exact ih s h
    · simp only [if_neg h1]
      by_cases h2 : places.get_domain_for_dedup p.website ∈ s.ledger.seen_domains
      · simp only [if_pos h2]
        exact ih s h
      · simp only [if_neg h2]
        simp only [List.length_append, List.length_cons, List.length_nil, Nat.zero_add]
        by_cases h4 : m ≤ s.ledger.leads.length + 1
        · simp only [if_pos h4]
          simp only [List.length_append, List.length_cons, List.length_nil, Nat.zero_add]
          omega
        · simp only [if_neg h4]
          refine le_trans (ih _ ?_) (le_refl m)
          simp only [List.length_append, List.length_cons, List.length_nil, Nat.zero_add]
          omega

theorem _run_google_len (w : email_extractor.Web) (e : Bool) (m : Nat)
    (fetch : String → String → List PlaceResult) :
    ∀ (pairs : List (String × String)) (s : RunState),
      (_run_google w e m fetch s pairs).ledger.leads.length
        ≤ Nat.max s.ledger.leads.length m := by
  intro pairs
  induction pairs with
  | nil => intro s; exact Nat.le_max_left _ _
  | cons pr rest ih =>
    intro s
    obtain ⟨n, c⟩ := pr
    unfold _run_google
    by_cases h : m ≤ s.ledger.leads.length
    · simp only [if_pos h]
      exact Nat.le_max_left _ _
    · simp only [if_neg h]
      refine le_trans (ih _) ?_
      have hloop := googleLoop_len w e m n c (fetch n c) s (by omega)
      exact Nat.max_le.mpr ⟨le_trans hloop (Nat.le_max_right _ _), Nat.le_max_right _ _⟩

/-! ### Admission rule and dedup invariants (claim C1) -/

/-- The claim's admission predicate for the OSM runner: identity key unseen,
and no (non-empty) extracted domain already seen. -/
def osmAdmitRule (lg : LedgerState) (p : OSMPlace) : Prop :=
  p.place_id ∉ lg.seen_place_ids ∧
  (osmDomainOf p = "" ∨ osmDomainOf p ∉ lg.seen_domains)

instance (lg : LedgerState) (p : OSMPlace) : Decidable (osmAdmitRule lg p) := by
  unfold osmAdmitRule; infer_instance

/-- The Google runner's actual admission predicate: identity key unseen and
extracted domain (empty included) unseen. -/
def googleAdmitRule (lg : LedgerState) (p : PlaceResult) : Prop :=
  p.place_id ∉ lg.seen_place_ids ∧
  places.get_domain_for_dedup p.website ∉ lg.seen_domains

instance (lg : LedgerState) (p : PlaceResult) : Decidable (googleAdmitRule lg p) := by
  unfold googleAdmitRule; infer_instance

/-- At-most-once dedup between two admissions: distinct identity keys, and
distinct domains whenever both are non-empty. -/
def dedupOnce (a b : String × String) : Prop :=
  a.1 ≠ b.1 ∧ (a.2 ≠ "" → b.2 ≠ "" → a.2 ≠ b.2)

instance (a b : String × String) : Decidable (dedupOnce a b) := by
  unfold dedupOnce; infer_instance

/-- At-most-once dedup in the Google runner: distinct identity keys and
distinct domains (empty domains included). -/
def dedupOnceG (a b : String × String) : Prop := a.1 ≠ b.1 ∧ a.2 ≠ b.2

instance (a b : String × String) : Decidable (dedupOnceG a b) := by
  unfold dedupOnceG; infer_instance

/-- Consistency of the ghost admission trace with the ledger sets. -/
def admittedInv (s : RunState) : Prop :=
  ∀ pr ∈ s.admitted,
    pr.1 ∈ s.ledger.seen_place_ids ∧ (pr.2 ≠ "" → pr.2 ∈ s.ledger.seen_domains)

theorem osmPhase1_dedup (e : Bool) (m : Nat) (n c : String) :
    ∀ (ps : List OSMPlace) (s : RunState) (cands : List OSMPlace),
      admittedInv s → s.admitted.Pairwise dedupOnce →
      admittedInv (osmPhase1 e m n c s cands ps).1
      ∧ ((osmPhase1 e m n c s cands ps).1).admitted.Pairwise dedupOnce := by
  intro ps
  induction ps with
  | nil => intro s cands hInv hPW; exact ⟨hInv, hPW⟩
  | cons p rest ih =>
    intro s cands hInv hPW
    unfold osmPhase1
    by_cases h1 : p.place_id ∈ s.ledger.seen_place_ids
    · simp only [if_pos h1]
      exact ih s cands hInv hPW
    · simp only [if_neg h1]
      by_cases h2 : (!(osmDomainOf p == "") && osmDomainOf p ∈ s.ledger.seen_domains) = true
      · simp only [if_pos h2]
        exact ih s cands hInv hPW
      · simp only [if_neg h2]
        have hdom : osmDomainOf p ≠ "" → osmDomainOf p ∉ s.ledger.seen_domains := by
          intro hne hmem
          apply h2
          simp [hne, hmem]
        set d := osmDomainOf p with hd
        set s' : RunState :=
          { ledger := { leads := s.ledger.leads
                        seen_place_ids := insert p.place_id s.ledger.seen_place_ids
                        seen_domains := if d == "" then s.ledger.seen_domains
                          else insert d s.ledger.seen_domains }
            admitted := s.admitted ++ [(p.place_id, d)] } with hs'
        have hInv' : admittedInv s' := by
          intro pr hpr
          rcases List.mem_append.mp hpr with hold | hnew
          · obtain ⟨hid, hdm⟩ := hInv pr hold
            refine ⟨Finset.mem_insert_of_mem hid, fun hne => ?_⟩
            by_cases hde : (d == "") = true
            · simp only [hs', hde, if_pos rfl]
              simpa [hde] using hdm hne
            · simp only [hs']
              simp only [Bool.eq_false_iff.mpr hde, Bool.false_eq_true, if_false]
              exact Finset.mem_insert_of_mem (hdm hne)
          · have heq : pr = (p.place_id, d) := by simpa using hnew
            subst heq
            refine ⟨Finset.mem_insert_self _ _, fun hne => ?_⟩
            have hde : (d == "") = false := by
              rw [beq_eq_false_iff_ne]
              exact hne
            simp only [hs', hde, Bool.false_eq_true, if_false]
            exact Finset.mem_insert_self _ _
        have hPW' : s'.admitted.Pairwise dedupOnce := by
          rw [hs']
          refine List.pairwise_append.mpr ⟨hPW, List.pairwise_singleton _ _, ?_⟩
          intro a ha b hb
          have hb' : b = (p.place_id, d) := by simpa using hb
          subst hb'
          obtain ⟨hid, hdm⟩ := hInv a ha
          refine ⟨fun heq => ?_, fun hane hdne heq => ?_⟩
          · have heq' : a.1 = p.place_id := heq
            exact h1 (heq' ▸ hid)
          · have heq' : a.2 = d := heq
            have hdne' : d ≠ "" := hdne
            exact hdom hdne' (heq' ▸ hdm hane)
        by_cases h3 : (e && !(p.website == "")) = true
        · simp only [if_pos h3]
          by_cases h4 : m ≤ s'.ledger.leads.length
          · simp only [if_pos h4]
            exact ⟨hInv', hPW'⟩
          · simp only [if_neg h4]
            exact ih s' (cands ++ [p]) hInv' hPW'
        · simp only [if_neg h3]
          simp only [osm_place_to_lead]
          exact ⟨hInv', hPW'⟩

theorem osmCityPass_dedup (w : email_extractor.Web) (sched : List OSMPlace → List OSMPlace)
    (e : Bool) (m : Nat) (n c : String) (s : RunState) (ps : List OSMPlace)
    (hInv : admittedInv s) (hPW : s.admitted.Pairwise dedupOnce) :
    admittedInv (osmCityPass w sched e m n c s ps)
    ∧ (osmCityPass w sched e m n c s ps).admitted.Pairwise dedupOnce := by
  unfold osmCityPass
  have h1 := osmPhase1_dedup e m n c ps s [] hInv hPW
  by_cases hb : (osmPhase1 e m n c s [] ps).2.2 = true
  · simp only [hb, if_true]
    exact h1
  · simp only [Bool.eq_false_iff.mpr hb, Bool.false_eq_true, if_false]
    by_cases hc : (osmPhase1 e m n c s [] ps).2.1.isEmpty = true
    · simp only [hc, if_true]
      exact h1
    · simp only [Bool.eq_false_iff.mpr hc, Bool.false_eq_true, if_false]
      obtain ⟨ha, hi, hdm⟩ := osmPhase2_sets m
        ((sched (osmPhase1 e m n c s [] ps).2.1).map
          (fun p => _process_place_emails w p n c)) (osmPhase1 e m n c s [] ps).1
      constructor
      · intro pr hpr
        rw [ha] at hpr
        obtain ⟨hx, hy⟩ := h1.1 pr hpr
        rw [hi, hdm]
        exact ⟨hx, hy⟩
      · rw [ha]
        exact h1.2

theorem _run_osm_dedup (w : email_extractor.Web) (sched : List OSMPlace → List OSMPlace)
    (e : Bool) (m : Nat) (fetch : String → String → List OSMPlace) :
    ∀ (pairs : List (String × String)) (s : RunState),
      admittedInv s → s.admitted.Pairwise dedupOnce →
      admittedInv (_run_osm w sched e m fetch s pairs)
      ∧ (_run_osm w sched e m fetch s pairs).admitted.Pairwise dedupOnce := by
  intro pairs
  induction pairs with
  | nil => intro s hInv hPW; exact ⟨hInv, hPW⟩
  | cons pr rest ih =>
    intro s hInv hPW
    obtain ⟨n, c⟩ := pr
    unfold _run_osm
    by_cases h : m ≤ s.ledger.leads.length
    · simp only [if_pos h]
      exact ⟨hInv, hPW⟩
    · simp only [if_neg h]
      obtain ⟨hInv', hPW'⟩ := osmCityPass_dedup w sched e m n c s (fetch n c) hInv hPW
      exact ih _ hInv' hPW'

theorem googleLoop_dedup (w : email_extractor.Web) (e : Bool) (m : Nat) (n c : String) :
    ∀ (ps : List PlaceResult) (s : RunState),
      (∀ pr ∈ s.admitted,
        pr.1 ∈ s.ledger.seen_place_ids ∧ pr.2 ∈ s.ledger.seen_domains) →
      s.admitted.Pairwise dedupOnceG →
      (∀ pr ∈ (googleLoop w e m n c s ps).admitted,
        pr.1 ∈ (googleLoop w e m n c s ps).ledger.seen_place_ids
        ∧ pr.2 ∈ (googleLoop w e m n c s ps).ledger.seen_domains)
      ∧ (googleLoop w e m n c s ps).admitted.Pairwise dedupOnceG := by
  intro ps
  induction ps with
  | nil => intro s hInv hPW; exact ⟨hInv, hPW⟩
  | cons p rest ih =>
    intro s hInv hPW
    unfold googleLoop
    by_cases h1 : p.place_id ∈ s.ledger.seen_place_ids
    · simp only [if_pos h1]
      exact ih s hInv hPW
    · simp only [if_neg h1]
      by_cases h2 : places.get_domain_for_dedup p.website ∈ s.ledger.seen_domains
      · simp only [if_pos h2]
        exact ih s hInv hPW
      · simp only [if_neg h2]
        have hInv' : ∀ pr ∈ s.admitted ++ [(p.place_id, places.get_domain_for_dedup p.website)],
            pr.1 ∈ insert p.place_id s.ledger.seen_place_ids
            ∧ pr.2 ∈ insert (places.get_domain_for_dedup p.website) s.ledger.seen_domains := by
          intro pr hpr
          rcases List.mem_append.mp hpr with hold | hnew
          · obtain ⟨hx, hy⟩ := hInv pr hold
            exact ⟨Finset.mem_insert_of_mem hx, Finset.mem_insert_of_mem hy⟩
          · have heq : pr = (p.place_id, places.get_domain_for_dedup p.website) := by
              simpa using hnew
            subst heq
            exact ⟨Finset.mem_insert_self _ _, Finset.mem_insert_self _ _⟩
        have hPW' : (s.admitted
            ++ [(p.place_id, places.get_domain_for_dedup p.website)]).Pairwise dedupOnceG := by
          refine List.pairwise_append.mpr ⟨hPW, List.pairwise_singleton _ _, ?_⟩
          intro a ha b hb
          have hb' : b = (p.place_id, places.get_domain_for_dedup p.website) := by
            simpa using hb
          subst hb'
          obtain ⟨hx, hy⟩ := hInv a ha
          refine ⟨fun heq => ?_, fun heq => ?_⟩
          · have heq' : a.1 = p.place_id := heq
            exact h1 (heq' ▸ hx)
          · have heq' : a.2 = places.get_domain_for_dedup p.website := heq
            exact h2 (heq' ▸ hy)
        split <;> split
        all_goals first
          | exact ⟨hInv', hPW'⟩
          | exact ih _ hInv' hPW'

theorem _run_google_dedup (w : email_extractor.Web) (e : Bool) (m : Nat)
    (fetch : String → String → List PlaceResult) :
    ∀ (pairs : List (String × String)) (s : RunState),
      (∀ pr ∈ s.admitted,
        pr.1 ∈ s.ledger.seen_place_ids ∧ pr.2 ∈ s.ledger.seen_domains) →
      s.admitted.Pairwise dedupOnceG →
      (_run_google w e m fetch s pairs).admitted.Pairwise dedupOnceG := by
  intro pairs
  induction pairs with
  | nil => intro s _ hPW; exact hPW
  | cons pr rest ih =>
    intro s hInv hPW
    obtain ⟨n, c⟩ := pr
    unfold _run_google
    by_cases h : m ≤ s.ledger.leads.length
    · simp only [if_pos h]
      exact hPW
    · simp only [if_neg h]
      obtain ⟨hInv', hPW'⟩ := googleLoop_dedup w e m n c (fetch n c) s hInv hPW
      exact ih _ hInv' hPW'

theorem osmPhase1_reject (e : Bool) (m : Nat) (n c : String) (s : RunState)
    (cands : List OSMPlace) (p : OSMPlace) (ps : List OSMPlace)
    (h : ¬ osmAdmitRule s.ledger p) :
    osmPhase1 e m n c s cands (p :: ps) = osmPhase1 e m n c s cands ps := by
  unfold osmAdmitRule at h
  push_neg at h
  by_cases h1 : p.place_id ∈ s.ledger.seen_place_ids
  · conv_lhs => unfold osmPhase1
    simp only [if_pos h1]
  · obtain ⟨h2, h3⟩ := h h1
    have hcond : (!(osmDomainOf p == "") && osmDomainOf p ∈ s.ledger.seen_domains) = true := by
      simp [h2, h3]
    conv_lhs => unfold osmPhase1
    simp only [if_neg h1, hcond, if_true]

theorem osmPhase1_single_state (e : Bool) (m : Nat) (n c : String) (s : RunState)
    (cands : List OSMPlace) (p : OSMPlace) :
    (osmPhase1 e m n c s cands [p]).1
      = if osmAdmitRule s.ledger p then
          { ledger := { leads := s.ledger.leads
                        seen_place_ids := insert p.place_id s.ledger.seen_place_ids
                        seen_domains := if osmDomainOf p = "" then s.ledger.seen_domains
                          else insert (osmDomainOf p) s.ledger.seen_domains }
            admitted := s.admitted ++ [(p.place_id, osmDomainOf p)] }
        else s := by
  by_cases hadm : osmAdmitRule s.ledger p
  · obtain ⟨h1, h2⟩ := hadm
    have hcond : (!(osmDomainOf p == "") && osmDomainOf p ∈ s.ledger.seen_domains) = false := by
      rcases h2 with h | h
      · simp [h]
      · simp [h]
    have hdeq : (osmDomainOf p == "") = (decide (osmDomainOf p = "")) := by
      by_cases hd : osmDomainOf p = ""
      · simp [hd]
      · simp [hd]
    rw [if_pos ⟨h1, h2⟩]
    unfold osmPhase1
    simp only [if_neg h1, hcond, Bool.false_eq_true, if_false]
    by_cases h3 : (e && !(p.website == "")) = true
    · simp only [if_pos h3]
      split
      · simp only [hdeq, decide_eq_true_eq]
      · unfold osmPhase1
        simp only [hdeq, decide_eq_true_eq]
    · simp only [if_neg h3]
      simp only [osm_place_to_lead]
      simp only [hdeq, decide_eq_true_eq]
  · rw [if_neg hadm, osmPhase1_reject e m n c s cands p [] hadm]
    rfl

theorem googleLoop_single_state (w : email_extractor.Web) (e : Bool) (m : Nat)
    (n c : String) (s : RunState) (p : PlaceResult) :
    googleLoop w e m n c s [p]
      = if googleAdmitRule s.ledger p then
          { ledger := { leads := s.ledger.leads
                          ++ [if (e && !(p.website == "")) = true then
                                fillEmailFields w p.website (place_to_lead p n c)
                              else place_to_lead p n c]
                        seen_place_ids := insert p.place_id s.ledger.seen_place_ids
                        seen_domains :=
                          insert (places.get_domain_for_dedup p.website) s.ledger.seen_domains }
            admitted := s.admitted ++ [(p.place_id, places.get_domain_for_dedup p.website)] }
        else s := by
  by_cases hadm : googleAdmitRule s.ledger p
  · obtain ⟨h1, h2⟩ := hadm
    rw [if_pos ⟨h1, h2⟩]
    conv_lhs => unfold googleLoop
    simp only [if_neg h1, if_neg h2]
    split <;> split <;> rfl
  · rw [if_neg hadm]
    unfold googleAdmitRule at hadm
    push_neg at hadm
    by_cases h1 : p.place_id ∈ s.ledger.seen_place_ids
    · conv_lhs => unfold googleLoop
      simp only [if_pos h1]
      rfl
    · have h2 := hadm h1
      conv_lhs => unfold googleLoop
      simp only [if_neg h1, if_pos h2]
      rfl

/-- A network on which every robots policy disallows the harvester (used by
several concrete runs below; with harvesting off it is never consulted). -/
def blockedWeb : email_extractor.Web := ⟨fun _ => false, fun _ => none⟩

/-- C1 counterexample inputs: two Google places whose (normalized, non-empty)
websites are the bare scheme `"https://"`, so their extracted dedup domain is
empty — "no website domain to check" in the claim's terms. -/
def c1Place1 : PlaceResult :=
  ⟨"gid1", "Praxis A", "Addr 1", "49.0", "8.0", "https://", "", "", "", "", []⟩

/-- Second counterexample place, distinct identity key, same empty domain. -/
def c1Place2 : PlaceResult :=
  ⟨"gid2", "Praxis B", "Addr 2", "49.0", "8.0", "https://", "", "", "", "", []⟩

/-- The Google run over only the first place. -/
def c1run1 : RunState :=
  _run_google blockedWeb false 10 (fun _ _ => [c1Place1]) ⟨⟨[], ∅, ∅⟩, []⟩
    [("Dentists", "Heidelberg")]

/-- The Google run over both places. -/
def c1run2 : RunState :=
  _run_google blockedWeb false 10 (fun _ _ => [c1Place1, c1Place2]) ⟨⟨[], ∅, ∅⟩, []⟩
    [("Dentists", "Heidelberg")]

/-- C1 counterexample.  When the second place is examined its identity key is
unseen and its extracted website domain is empty, so the claim's rule says it
is admitted and recorded; but the Google runner records nothing for it — the
run over both places ends in exactly the state of the run over the first place
alone, because `_run_google` has no empty-domain exemption and the first place
already put the empty domain into the seen-domain set. -/
theorem C1_admission_counterexample :
    places.get_domain_for_dedup c1Place2.website = ""
    ∧ c1Place2.place_id ∉ c1run1.ledger.seen_place_ids
    ∧ c1run1.admitted = [("gid1", "")]
    ∧ c1run2 = c1run1 := by
  refine ⟨by decide, by decide, by decide, by decide⟩

/-- C1 amended (proved).  Per examined place: the OSM runner admits (recording
the identity key, and the domain when non-empty) exactly when the identity key
is unseen and the extracted domain is empty or unseen — and changes nothing
otherwise; the Google runner admits exactly when the identity key is unseen and
the extracted domain (empty included) is unseen, recording both
unconditionally.  Over the whole ledger lifetime, the admission trace of an OSM
run is pairwise distinct in identity keys and in non-empty domains, and that of
a Google run is pairwise distinct in identity keys and in all domains. -/
theorem C1_dedup_ledger :
    (∀ (e : Bool) (m : Nat) (n c : String) (s : RunState) (cands : List OSMPlace)
        (p : OSMPlace),
      (osmPhase1 e m n c s cands [p]).1
        = if osmAdmitRule s.ledger p then
            { ledger := { leads := s.ledger.leads
                          seen_place_ids := insert p.place_id s.ledger.seen_place_ids
                          seen_domains := if osmDomainOf p = "" then s.ledger.seen_domains
                            else insert (osmDomainOf p) s.ledger.seen_domains }
              admitted := s.admitted ++ [(p.place_id, osmDomainOf p)] }
          else s)
    ∧ (∀ (e : Bool) (m : Nat) (n c : String) (s : RunState) (cands : List OSMPlace)
        (p : OSMPlace) (ps : List OSMPlace), ¬ osmAdmitRule s.ledger p →
      osmPhase1 e m n c s cands (p :: ps) = osmPhase1 e m n c s cands ps)
    ∧ (∀ (w : email_extractor.Web) (e : Bool) (m : Nat) (n c : String) (s : RunState)
        (p : PlaceResult),
      googleLoop w e m n c s [p]
        = if googleAdmitRule s.ledger p then
            { ledger := { leads := s.ledger.leads
                            ++ [if (e && !(p.website == "")) = true then
                                  fillEmailFields w p.website (place_to_lead p n c)
                                else place_to_lead p n c]
                          seen_place_ids := insert p.place_id s.ledger.seen_place_ids
                          seen_domains :=
                            insert (places.get_domain_for_dedup p.website)
                              s.ledger.seen_domains }
              admitted := s.admitted
                ++ [(p.place_id, places.get_domain_for_dedup p.website)] }
          else s)
    ∧ (∀ (w : email_extractor.Web) (sched : List OSMPlace → List OSMPlace) (e : Bool)
        (m : Nat) (fetch : String → String → List OSMPlace) (lg : LedgerState)
        (pairs : List (String × String)),
      ((_run_osm w sched e m fetch ⟨lg, []⟩ pairs).admitted).Pairwise dedupOnce)
    ∧ (∀ (w : email_extractor.Web) (e : Bool) (m : Nat)
        (fetch : String → String → List PlaceResult) (lg : LedgerState)
        (pairs : List (String × String)),
      ((_run_google w e m fetch ⟨lg, []⟩ pairs).admitted).Pairwise dedupOnceG) := by
  refine ⟨osmPhase1_single_state, osmPhase1_reject, googleLoop_single_state, ?_, ?_⟩
  · intro w sched e m fetch lg pairs
    exact (_run_osm_dedup w sched e m fetch pairs ⟨lg, []⟩
      (by intro pr hpr; cases hpr) List.Pairwise.nil).2
  · intro w e m fetch lg pairs
    exact _run_google_dedup w e m fetch pairs ⟨lg, []⟩
      (by intro pr hpr; cases hpr) List.Pairwise.nil

/-- Witness for the amended C1: a place whose identity key is already seen is
skipped without any recording. -/
theorem C1_dedup_ledger_witness :
    osmPhase1 false 10 "Dentists" "Heidelberg"
        ⟨⟨[], {"osm:node:1"}, ∅⟩, []⟩ []
        [⟨"osm:node:1", "Praxis A", "Addr 1", "49.0", "8.0", "https://a.de", "", "", []⟩]
      = osmPhase1 false 10 "Dentists" "Heidelberg" ⟨⟨[], {"osm:node:1"}, ∅⟩, []⟩ [] [] :=
  C1_dedup_ledger.2.1 false 10 "Dentists" "Heidelberg"
    ⟨⟨[], {"osm:node:1"}, ∅⟩, []⟩ []
    ⟨"osm:node:1", "Praxis A", "Addr 1", "49.0", "8.0", "https://a.de", "", "", []⟩ []
    (by decide)

/-! ## Claim C2: budget enforcement -/

/-- A contactable checkpoint lead used by the C2 counterexample. -/
def c2Lead1 : Lead :=
  ⟨"Dentists", "Heidelberg", "Praxis A", "Nill", "", "Addr 1", "49.0", "8.0",
   "Nill", "", "https://a.de", "", "", "g1", "info@a.de", "homepage", ""⟩

/-- A second contactable checkpoint lead. -/
def c2Lead2 : Lead :=
  ⟨"Dentists", "Heidelberg", "Praxis B", "Nill", "", "Addr 2", "49.0", "8.0",
   "Nill", "", "https://b.de", "", "", "g2", "info@b.de", "homepage", ""⟩

/-- C2 counterexample.  Resuming from a checkpoint that already holds two
(contactable) leads with a requested budget of one, `run_collection` exports
both checkpoint rows: the early-exit guard
`len(leads) >= max_leads and not (niches and cities)` can never fire for the
non-empty niche/city lists the function requires, the runner adds nothing, and
the final export writes the entire lead list — 2 data rows for a budget of 1. -/
theorem C2_budget_counterexample :
    run_collection blockedWeb (fun l => l) "osm" false 1
        ⟨[c2Lead1, c2Lead2], ["g1", "g2"], ["a.de", "b.de"]⟩
        (fun _ _ => []) (fun _ _ => []) ["Dentists"] ["Heidelberg"]
      = .ok [exportColumns, leadRow c2Lead1, leadRow c2Lead2]
    ∧ ¬ ([exportColumns, leadRow c2Lead1, leadRow c2Lead2].length - 1 ≤ 1) := by
  refine ⟨by decide, by decide⟩

/-- C2 amended (proved).  For every `run_collection` run whose loaded
checkpoint holds at most `max_leads` leads, the exported file has at most
`max_leads` data rows (`max_leads + 1` rows with the header): within a run the
runners never append past the budget.  (A checkpoint already over budget is
exported whole, as the counterexample shows.) -/
theorem C2_budget_enforcement (w : email_extractor.Web)
    (sched : List OSMPlace → List OSMPlace) (source : String) (e : Bool) (m : Nat)
    (checkpoint : Checkpoint) (fetchOSM : String → String → List OSMPlace)
    (fetchG : String → String → List PlaceResult) (niches cities : List String)
    (hn : niches ≠ []) (hc : cities ≠ [])
    (hinit : (load_checkpoint checkpoint).leads.length ≤ m) :
    ∃ rows, run_collection w sched source e m checkpoint fetchOSM fetchG niches cities
        = .ok rows ∧ rows.length ≤ m + 1 := by
  have hne : ¬ (niches.isEmpty || cities.isEmpty) = true := by
    simp [List.isEmpty_iff, hn, hc]
  have hguard : ¬ (m ≤ (load_checkpoint checkpoint).leads.length
      ∧ (niches.isEmpty = true ∨ cities.isEmpty = true)) := by
    rintro ⟨-, h | h⟩
    · exact hn (List.isEmpty_iff.mp h)
    · exact hc (List.isEmpty_iff.mp h)
  unfold run_collection
  simp only [if_neg hne, if_neg hguard]
  set lg := load_checkpoint checkpoint with hlg
  by_cases hsource : source = "google"
  · simp only [if_pos hsource]
    refine ⟨_, rfl, ?_⟩
    have hlen : (_run_google w e m fetchG ⟨lg, []⟩
        (pairsOf niches cities)).ledger.leads.length ≤ m :=
      le_trans (_run_google_len w e m fetchG (pairsOf niches cities) ⟨lg, []⟩)
        (Nat.max_le.mpr ⟨hinit, Nat.le_refl m⟩)
    have hfil := List.length_filter_le contactableLead
      ((_run_google w e m fetchG ⟨lg, []⟩ (pairsOf niches cities)).ledger.leads)
    unfold export_csv
    simp only [eq_self_iff_true, if_true, List.length_cons, List.length_map]
    omega
  · simp only [if_neg hsource]
    refine ⟨_, rfl, ?_⟩
    have hlen : (_run_osm w sched e m fetchOSM ⟨lg, []⟩
        (pairsOf niches cities)).ledger.leads.length ≤ m :=
      le_trans (_run_osm_len w sched e m fetchOSM (pairsOf niches cities) ⟨lg, []⟩)
        (Nat.max_le.mpr ⟨hinit, Nat.le_refl m⟩)
    have hfil := List.length_filter_le contactableLead
      ((_run_osm w sched e m fetchOSM ⟨lg, []⟩ (pairsOf niches cities)).ledger.leads)
    unfold export_csv
    simp only [eq_self_iff_true, if_true, List.length_cons, List.length_map]
    omega

/-- Witness for the amended C2: a concrete under-budget resume stays within
budget. -/
theorem C2_budget_enforcement_witness :
    ∃ rows, run_collection blockedWeb (fun l => l) "osm" false 5
        ⟨[c2Lead1, c2Lead2], ["g1", "g2"], ["a.de", "b.de"]⟩
        (fun _ _ => []) (fun _ _ => []) ["Dentists"] ["Heidelberg"]
      = .ok rows ∧ rows.length ≤ 5 + 1 :=
  C2_budget_enforcement blockedWeb (fun l => l) "osm" false 5
    ⟨[c2Lead1, c2Lead2], ["g1", "g2"], ["a.de", "b.de"]⟩
    (fun _ _ => []) (fun _ _ => []) ["Dentists"] ["Heidelberg"]
    (by decide) (by decide) (by decide)

/-! ## Claim C3: idempotent resume -/

/-- First OSM place of the C3 failing input. -/
def c3Place1 : OSMPlace :=
  ⟨"osm:node:1", "Praxis A", "Addr 1", "49.0", "8.0", "https://a.de", "", "", []⟩

/-- Second OSM place of the C3 failing input. -/
def c3Place2 : OSMPlace :=
  ⟨"osm:node:2", "Praxis B", "Addr 2", "49.0", "8.0", "https://b.de", "", "", []⟩

/-- The adapter feed of the C3 failing input (same places on both runs). -/
def c3fetch : String → String → List OSMPlace := fun _ _ => [c3Place1, c3Place2]

/-- First run of the C3 failing input (harvesting off, budget 10). -/
def c3run1 : RunState :=
  _run_osm blockedWeb (fun l => l) false 10 c3fetch ⟨⟨[], ∅, ∅⟩, []⟩
    [("Dentists", "Heidelberg")]

/-- Second run, resuming from the saved-and-reloaded checkpoint of the first. -/
def c3run2 : RunState :=
  _run_osm blockedWeb (fun l => l) false 10 c3fetch
    ⟨load_checkpoint (save_checkpoint c3run1.ledger), []⟩ [("Dentists", "Heidelberg")]

/-- C3 (code bug).  The claim — a second identical run rejects every candidate
place through the checkpointed identity/domain sets — is the spec's clear
intent, but `osm_place_to_lead` reads `place.owner`, a field the `OSMPlace`
dataclass does not declare, so with harvesting off the first admitted place of
each (niche, city) pass raises AttributeError and aborts the pass before the
remaining places are examined.  On the failing input the first run admits only
place 1 and appends no lead; the second run then admits place 2 (its key and
domain are NOT in the checkpoint sets) instead of rejecting it — and again
appends nothing only because lead construction crashes again. -/
theorem C3_resume_owner_bug :
    c3run1.admitted = [("osm:node:1", "a.de")]
    ∧ c3run1.ledger.leads = []
    ∧ c3Place2.place_id ∉ c3run1.ledger.seen_place_ids
    ∧ c3run2.admitted = [("osm:node:2", "b.de")]
    ∧ c3run2.ledger.leads = [] := by
  have h := load_checkpoint_save_checkpoint c3run1.ledger
  refine ⟨by decide, by decide, by decide, ?_, ?_⟩
  · show c3run2.admitted = [("osm:node:2", "b.de")]
    unfold c3run2
    rw [h]
    decide
  · show c3run2.ledger.leads = []
    unfold c3run2
    rw [h]
    decide

/-! ## Claim C8: export filtering and header -/

/-- The claim's row condition, written from the spec's words: `emails_found`
present and not the sentinel `"Nill"`, and `website_url` present and not the
sentinel (sentinel-ness up to surrounding whitespace, as the exporter tests). -/
def contactableSpec (l : Lead) : Prop :=
  l.emails_found ≠ "" ∧ pyStrip l.emails_found ≠ "Nill" ∧
  l.website_url ≠ "" ∧ pyStrip l.website_url ≠ "Nill"

instance (l : Lead) : Decidable (contactableSpec l) := by
  unfold contactableSpec; infer_instance

theorem contactableLead_eq_spec (l : Lead) :
    contactableLead l = true ↔ contactableSpec l := by
  simp [contactableLead, contactableSpec, and_assoc]

/-- C8 (confirmed).  `export_csv` with `require_email_and_website` writes
exactly the leads whose `emails_found` and `website_url` are both present and
not the sentinel `"Nill"` (in input order, projected to the fixed column set),
below the fixed header row which is always written; zero qualifying leads give
a header-only file. -/
theorem C8_export_filtering (leads : List Lead) :
    export_csv leads true
        = exportColumns :: (leads.filter (fun l => decide (contactableSpec l))).map leadRow
    ∧ (leads.filter (fun l => decide (contactableSpec l)) = [] →
        export_csv leads true = [exportColumns]) := by
  have hf : leads.filter contactableLead
      = leads.filter (fun l => decide (contactableSpec l)) := by
    apply List.filter_congr
    intro l _
    by_cases hs : contactableSpec l
    · simp [(contactableLead_eq_spec l).mpr hs, hs]
    · have hn : contactableLead l ≠ true := fun hh => hs ((contactableLead_eq_spec l).mp hh)
      simp [Bool.eq_false_iff.mpr hn, hs]
  constructor
  · simp [export_csv, hf]
  · intro h
    simp [export_csv, hf, h]

/-- Witness for C8: the spec's two-lead example (one contactable lead, one
all-sentinel lead) exports exactly the contactable row, and a
single-non-contactable-lead input gives the header-only file. -/
theorem C8_export_filtering_witness :
    export_csv
        [{ niche := "Dentists", city := "Heidelberg", business_name := "Praxis A",
           first_name := "Nill", reviews_count := "", formatted_address := "A 1",
           latitude := "49.0", longitude := "8.0", phone := "Nill",
           google_maps_url := "", website_url := "https://a.de", rating := "",
           ratings_count := "", place_id := "g1", emails_found := "info@a.de",
           email_source_page := "homepage", gmail_addresses := "" },
         { niche := "Dentists", city := "Heidelberg", business_name := "Praxis B",
           first_name := "Nill", reviews_count := "", formatted_address := "B 2",
           latitude := "49.0", longitude := "8.0", phone := "Nill",
           google_maps_url := "", website_url := "Nill", rating := "",
           ratings_count := "", place_id := "g2", emails_found := "Nill",
           email_source_page := "", gmail_addresses := "" }] true
      = [exportColumns,
         ["Dentists", "Heidelberg", "Praxis A", "Nill", "", "https://a.de", "info@a.de"]]
    ∧ export_csv
        [{ niche := "Dentists", city := "Heidelberg", business_name := "Praxis B",
           first_name := "Nill", reviews_count := "", formatted_address := "B 2",
           latitude := "49.0", longitude := "8.0", phone := "Nill",
           google_maps_url := "", website_url := "Nill", rating := "",
           ratings_count := "", place_id := "g2", emails_found := "Nill",
           email_source_page := "", gmail_addresses := "" }] true
      = [exportColumns] := by
  constructor
  · rw [(C8_export_filtering _).1]
    decide
  · exact (C8_export_filtering _).2 (by decide)

/-! ## Claim C9: robots compliance -/

/-- C9 (confirmed).  For every http(s) website URL whose robots policy
disallows the harvester's user agent, `extract_emails_from_website` returns an
empty email list with the `"robots_blocked"` hint and performs zero content
fetches (the instrumented fetch list is empty). -/
theorem C9_robots_compliance (w : email_extractor.Web) (url : String)
    (hscheme : startsWithL url "http://" = true ∨ startsWithL url "https://" = true)
    (hblocked : w.robots_allowed url = false) :
    email_extractor.extract_emails_from_website w url = (([], "robots_blocked"), []) := by
  have hs : (startsWithL url "http://" || startsWithL url "https://") = true := by
    rcases hscheme with h | h <;> simp [h]
  simp [email_extractor.extract_emails_from_website, email_extractor._check_robots_allowed,
    hs, hblocked]

/-- Witness for C9 at a concrete blocked host. -/
theorem C9_robots_compliance_witness :
    email_extractor.extract_emails_from_website blockedWeb "https://business.example"
      = (([], "robots_blocked"), []) :=
  C9_robots_compliance blockedWeb "https://business.example"
    (Or.inr (by decide)) rfl

/-! ## Claim C10: email/hint pairing -/

theorem dedupEmails_length (pairs : List (String × String)) :
    ∀ seen : Finset String,
      (email_extractor.dedupEmails seen pairs).1.length
        = (email_extractor.dedupEmails seen pairs).2.length := by
  induction pairs with
  | nil => intro seen; rfl
  | cons p rest ih =>
    intro seen
    by_cases h : p.1 ∈ seen
    · simp [email_extractor.dedupEmails, h, ih]
    · simp [email_extractor.dedupEmails, h, ih]

theorem dedupEmails_not_mem_seen (pairs : List (String × String)) :
    ∀ seen : Finset String, ∀ e ∈ (email_extractor.dedupEmails seen pairs).1, e ∉ seen := by
  induction pairs with
  | nil => intro seen e he; cases he
  | cons p rest ih =>
    intro seen e he
    by_cases h : p.1 ∈ seen
    · exact ih seen e (by simpa [email_extractor.dedupEmails, h] using he)
    · simp only [email_extractor.dedupEmails, if_neg h] at he
      rcases List.mem_cons.mp he with rfl | he'
      · exact h
      · have := ih (insert p.1 seen) e he'
        intro hmem
        exact this (Finset.mem_insert_of_mem hmem)

theorem dedupEmails_nodup (pairs : List (String × String)) :
    ∀ seen : Finset String, (email_extractor.dedupEmails seen pairs).1.Nodup := by
  induction pairs with
  | nil => intro seen; exact List.nodup_nil
  | cons p rest ih =>
    intro seen
    by_cases h : p.1 ∈ seen
    · simpa [email_extractor.dedupEmails, h] using ih seen
    · simp only [email_extractor.dedupEmails, if_neg h]
      refine List.nodup_cons.mpr ⟨?_, ih (insert p.1 seen)⟩
      intro hmem
      exact dedupEmails_not_mem_seen rest (insert p.1 seen) p.1 hmem
        (Finset.mem_insert_self _ _)

theorem dedupEmails_find? (pairs : List (String × String)) :
    ∀ seen : Finset String, ∀ e src : String,
      (e, src) ∈ ((email_extractor.dedupEmails seen pairs).1.zip
                    (email_extractor.dedupEmails seen pairs).2) →
      pairs.find? (fun pr => pr.1 == e) = some (e, src) := by
  induction pairs with
  | nil => intro seen e src h; cases h
  | cons p rest ih =>
    obtain ⟨a, s⟩ := p
    intro seen e src h
    by_cases hp : a ∈ seen
    · have h' : (e, src) ∈ ((email_extractor.dedupEmails seen rest).1.zip
          (email_extractor.dedupEmails seen rest).2) := by
        simpa [email_extractor.dedupEmails, hp] using h
      have hne : ¬ (a == e) = true := by
        intro hEq
        exact dedupEmails_not_mem_seen rest seen e (List.of_mem_zip h').1
          ((eq_of_beq hEq) ▸ hp)
      exact (List.find?_cons_of_neg rest hne).trans (ih seen e src h')
    · simp only [email_extractor.dedupEmails, if_neg hp, List.zip_cons_cons] at h
      rcases List.mem_cons.mp h with hEq | h'
      · injection hEq with he hs
        have hpos : (a == e) = true := by simp [he]
        exact (List.find?_cons_of_pos rest hpos).trans (by rw [he, hs])
      · have hne : ¬ (a == e) = true := by
          intro hEq
          exact dedupEmails_not_mem_seen rest (insert a seen) e (List.of_mem_zip h').1
            ((eq_of_beq hEq) ▸ Finset.mem_insert_self a seen)
        exact (List.find?_cons_of_neg rest hne).trans (ih (insert a seen) e src h')

/-- A network that allows every robots policy and serves the same tiny contact
page everywhere (used by the concrete harvesting run below). -/
def pageWeb : email_extractor.Web :=
  ⟨fun _ => true, fun _ => some "info@business.de"⟩

/-- C10 counterexample.  The claim asserts that for every input the hint string
is the comma-join of exactly one page hint per returned email; on a
robots-blocked input the harvester returns zero emails yet the hint
`"robots_blocked"`, which is not the comma-join of zero hints (the empty
string). -/
theorem C10_pairing_counterexample :
    email_extractor.extract_emails_from_website blockedWeb "https://blocked.business.example"
        = (([], "robots_blocked"), [])
    ∧ joinComma [] = ""
    ∧ ("robots_blocked" : String) ≠ "" := by
  refine ⟨?_, rfl, by decide⟩
  decide

/-- C10 amended (proved).  For every input, the returned email list contains no
duplicates.  A non-`http(s)` URL returns empty with the empty hint string; a
robots-blocked URL returns empty emails with the literal hint
`"robots_blocked"` (not the comma-join of zero hints); otherwise the returned
emails and the hint string are exactly the two components of
`dedupEmails ∅ (collectPages ..)` — the emails in first-seen order, the hint
string the comma-join of their paired hints, one per email — and each paired
hint is the page type of the FIRST extracted occurrence of its email, as
found by `find?` over the raw `(email, page_type)` extraction stream. -/
theorem C10_email_hint_pairing (w : email_extractor.Web) (url : String) :
    ((email_extractor.extract_emails_from_website w url).1.1).Nodup
    ∧ ((startsWithL url "http://" || startsWithL url "https://") = false →
        email_extractor.extract_emails_from_website w url = (([], ""), []))
    ∧ ((startsWithL url "http://" || startsWithL url "https://") = true →
        email_extractor._check_robots_allowed w url = false →
        email_extractor.extract_emails_from_website w url = (([], "robots_blocked"), []))
    ∧ ((startsWithL url "http://" || startsWithL url "https://") = true →
        email_extractor._check_robots_allowed w url = true →
        (email_extractor.extract_emails_from_website w url).1.1
            = (email_extractor.dedupEmails ∅
                (email_extractor.collectPages w 0
                  (email_extractor._get_candidate_urls url 2)).1).1
        ∧ (email_extractor.extract_emails_from_website w url).1.2
            = joinComma (email_extractor.dedupEmails ∅
                (email_extractor.collectPages w 0
                  (email_extractor._get_candidate_urls url 2)).1).2
        ∧ (email_extractor.dedupEmails ∅
              (email_extractor.collectPages w 0
                (email_extractor._get_candidate_urls url 2)).1).2.length
            = (email_extractor.extract_emails_from_website w url).1.1.length
        ∧ ∀ e src : String,
            (e, src) ∈ ((email_extractor.dedupEmails ∅
                  (email_extractor.collectPages w 0
                    (email_extractor._get_candidate_urls url 2)).1).1.zip
                (email_extractor.dedupEmails ∅
                  (email_extractor.collectPages w 0
                    (email_extractor._get_candidate_urls url 2)).1).2) →
            (email_extractor.collectPages w 0
                (email_extractor._get_candidate_urls url 2)).1.find?
                (fun pr => pr.1 == e) = some (e, src)) := by
  refine ⟨?_, ?_, ?_, ?_⟩
  · unfold email_extractor.extract_emails_from_website
    by_cases h1 : (startsWithL url "http://" || startsWithL url "https://") = true
    · by_cases h2 : email_extractor._check_robots_allowed w url = true
      · simp only [h1, h2, Bool.not_true, Bool.false_eq_true, if_false]
        exact dedupEmails_nodup _ _
      · have h2' : email_extractor._check_robots_allowed w url = false :=
          Bool.eq_false_iff.mpr h2
        simp only [h1, h2', Bool.not_true, Bool.not_false, Bool.false_eq_true, if_false,
          if_true]
        exact List.nodup_nil
    · have h1' : (startsWithL url "http://" || startsWithL url "https://") = false :=
        Bool.eq_false_iff.mpr h1
      simp only [h1', Bool.not_false, if_true]
      exact List.nodup_nil
  · intro h1
    unfold email_extractor.extract_emails_from_website
    simp only [h1, Bool.not_false, if_true]
  · intro h1 h2
    unfold email_extractor.extract_emails_from_website
    simp only [h1, h2, Bool.not_true, Bool.not_false, Bool.false_eq_true, if_false,
      if_true]
  · intro h1 h2
    unfold email_extractor.extract_emails_from_website
    simp only [h1, h2, Bool.not_true, Bool.false_eq_true, if_false]
    refine ⟨by trivial, by trivial, (dedupEmails_length _ _).symm, ?_⟩
    intro e src hmem
    exact dedupEmails_find? _ ∅ e src hmem

/-- Witness for the amended C10: a non-http URL and a robots-blocked URL give
the two empty outcomes; on an allowed site whose homepage and `/kontakt` page
both contain `info@business.de`, the single returned email is paired with the
hint `"homepage"` — the page type of its first extracted occurrence per
`find?` over the raw extraction stream, not the later `"page_1"`. -/
theorem C10_email_hint_pairing_witness :
    email_extractor.extract_emails_from_website blockedWeb "ftp://biz.example"
        = (([], ""), [])
    ∧ email_extractor.extract_emails_from_website blockedWeb "https://dark.example"
        = (([], "robots_blocked"), [])
    ∧ (email_extractor.extract_emails_from_website pageWeb "https://biz.de").1.1
        = ["info@business.de"]
    ∧ (email_extractor.extract_emails_from_website pageWeb "https://biz.de").1.2
        = "homepage"
    ∧ (email_extractor.collectPages pageWeb 0
          (email_extractor._get_candidate_urls "https://biz.de" 2)).1
        = [("info@business.de", "homepage"), ("info@business.de", "page_1")]
    ∧ (email_extractor.collectPages pageWeb 0
          (email_extractor._get_candidate_urls "https://biz.de" 2)).1.find?
        (fun pr => pr.1 == "info@business.de")
        = some ("info@business.de", "homepage") := by
  refine ⟨?_, ?_, ?_, ?_, ?_, ?_⟩
  · exact (C10_email_hint_pairing blockedWeb "ftp://biz.example").2.1 (by decide)
  · exact (C10_email_hint_pairing blockedWeb "https://dark.example").2.2.1
      (by decide) rfl
  · have h := (C10_email_hint_pairing pageWeb "https://biz.de").2.2.2 (by decide) rfl
    rw [h.1]; decide
  · have h := (C10_email_hint_pairing pageWeb "https://biz.de").2.2.2 (by decide) rfl
    rw [h.2.1]; decide
  · decide
  · have h := (C10_email_hint_pairing pageWeb "https://biz.de").2.2.2 (by decide) rfl
    exact h.2.2.2 "info@business.de" "homepage" (by decide)

end main

end MailGen
